import Mathlib

/-!
Verification of the neon-sql query composer and value codec (src/index.ts).

The development shallowly embeds the TypeScript source: JS runtime values are
modelled by the inductive `JSVal` (JS numbers are modelled by their canonical
finite decimal representation, mantissa and scale, which is exact for the
fixed-notation range in which JS prints numbers), JS exceptions by `Except`,
and the mutable scratch state of the array parser by explicit state passing.
All definitions are executable so that concrete inputs evaluate by `decide`.
-/

set_option autoImplicit false

namespace NeonSql

/-! ### Decimal digit printing (used for placeholder indices, numbers, bigints) -/

/-- Fuel-based digit expansion of a natural number, most significant digit first. -/
def natToDigitsAux : Nat → Nat → List Char
  | 0, _ => []
  | fuel+1, n =>
    if n < 10 then [Char.ofNat (48 + n)]
    else natToDigitsAux fuel (n / 10) ++ [Char.ofNat (48 + n % 10)]

/-- Decimal digits of a natural number (no sign, no leading zeros). -/
def natToDigits (n : Nat) : List Char := natToDigitsAux (n + 1) n

/-- Decimal string of a natural number, as JS number/BigInt printing produces. -/
def natToDecString (n : Nat) : String := String.mk (natToDigits n)

/-- Decimal string of an integer, as JS prints integers and BigInts. -/
def intToDecString (n : Int) : String :=
  (if n < 0 then "-" else "") ++ natToDecString n.natAbs

/-! ### The array text parser (source: arrayParserState, arrayParser, arrayParserLoop)

The source keeps one shared mutable record `arrayParserState`; we model it as
the structure `APState` threaded explicitly.  `arrayParser` resets only the
`i` and `last` fields before running the loop, exactly as the source does.
The element parser argument is modelled as a function `String → α`; the JS
call with a null parser corresponds to `α := String`, `parse := id`. -/

/-- Result tree of the array parser: a parsed element or a nested array. -/
inductive ATree (α : Type) where
  | leaf (s : α)
  | sub (xs : List (ATree α))

mutual

/-- Decidable equality for array-parser result trees. -/
def ATree.decEq {α : Type} [DecidableEq α] : (a b : ATree α) → Decidable (a = b)
  | .leaf x, .leaf y =>
    if h : x = y then .isTrue (by rw [h]) else .isFalse (by simp [h])
  | .leaf _, .sub _ => .isFalse (by simp)
  | .sub _, .leaf _ => .isFalse (by simp)
  | .sub xs, .sub ys =>
    match ATree.decEqList xs ys with
    | .isTrue h => .isTrue (by rw [h])
    | .isFalse h => .isFalse (by simpa using h)

/-- Decidable equality for lists of array-parser result trees. -/
def ATree.decEqList {α : Type} [DecidableEq α] : (xs ys : List (ATree α)) → Decidable (xs = ys)
  | [], [] => .isTrue rfl
  | [], _ :: _ => .isFalse (by simp)
  | _ :: _, [] => .isFalse (by simp)
  | a :: as, b :: bs =>
    match ATree.decEq a b with
    | .isTrue h1 =>
      match ATree.decEqList as bs with
      | .isTrue h2 => .isTrue (by rw [h1, h2])
      | .isFalse h2 => .isFalse (by simp [h2])
    | .isFalse h1 => .isFalse (by simp [h1])

end

instance {α : Type} [DecidableEq α] : DecidableEq (ATree α) := ATree.decEq

/-- The parser scratch state: scan position `i`, previous character `p`,
current character `char`, accumulated quoted string `str`, quoted flag,
and last element-start offset `last`. -/
structure APState where
  i : Nat
  p : Option Char
  char : Option Char
  str : String
  quoted : Bool
  last : Nat
  deriving DecidableEq

/-- The initial value of the shared scratch state in the source. -/
def arrayParserState : APState :=
  { i := 0, p := none, char := none, str := "", quoted := false, last := 0 }

/-- JS String.prototype.slice for non-negative indices (clamping at the end). -/
def jsSlice (x : List Char) (a b : Nat) : String := String.mk ((x.drop a).take (b - a))

/-- One-for-one embedding of `arrayParserLoop`.  `xs` is the accumulator of the
local array, the returned state is the shared record after the call.  The JS
for-loop becomes fuel-based recursion; every recursive step strictly advances
the scan position, so `2 * x.length + 2` fuel is always sufficient. -/
def arrayParserLoop {α : Type} (parse : String → α) (typarray : Nat) (x : List Char) :
    Nat → APState → List (ATree α) → (List (ATree α) × APState)
  | 0, s, xs => (xs, s)
  | fuel+1, s, xs =>
    let delim : Char := if typarray = 1020 then ';' else ','
    match x.get? s.i with
    | some c =>
      let s := { s with char := some c }
      if s.quoted then
        if c = '\\' then
          let str1 := match x.get? (s.i + 1) with
            | some d => s.str.push d
            | none => s.str ++ "undefined"
          arrayParserLoop parse typarray x fuel
            { s with str := str1, p := some c, i := s.i + 2 } xs
        else if c = '"' then
          arrayParserLoop parse typarray x fuel
            { s with str := "", quoted := (x.get? (s.i + 1) = some '"'),
                     last := s.i + 2, p := some c, i := s.i + 1 }
            (xs ++ [ATree.leaf (parse s.str)])
        else
          arrayParserLoop parse typarray x fuel
            { s with str := s.str.push c, p := some c, i := s.i + 1 } xs
      else if c = '"' then
        arrayParserLoop parse typarray x fuel
          { s with quoted := true, p := some c, i := s.i + 1 } xs
      else if c = '{' then
        let r := arrayParserLoop parse typarray x fuel { s with last := s.i + 1, i := s.i + 1 } []
        arrayParserLoop parse typarray x fuel
          { r.2 with p := r.2.char, i := r.2.i + 1 } (xs ++ [ATree.sub r.1])
      else if c = '}' then
        -- the `break`: the assignment to `quoted`, the conditional push, the
        -- update of `last`; `p` is not updated and `i` is not incremented
        (if s.last < s.i then xs ++ [ATree.leaf (parse (jsSlice x s.last s.i))] else xs,
         { s with quoted := false, last := s.i + 1 })
      else if c = delim ∧ s.p ≠ some '}' ∧ s.p ≠ some '"' then
        arrayParserLoop parse typarray x fuel
          { s with last := s.i + 1, p := some c, i := s.i + 1 }
          (xs ++ [ATree.leaf (parse (jsSlice x s.last s.i))])
      else
        arrayParserLoop parse typarray x fuel { s with p := some c, i := s.i + 1 } xs
    | none =>
      (if s.last < s.i then xs ++ [ATree.leaf (parse (jsSlice x s.last (s.i + 1)))] else xs, s)

/-- Embedding of `arrayParser` run against an explicit incoming scratch state
`s`: only `i` and `last` are reset, the other fields are whatever the previous
use of the shared state left there. -/
def arrayParserFrom {α : Type} (parse : String → α) (typarray : Nat) (s : APState)
    (x : String) : List (ATree α) × APState :=
  arrayParserLoop parse typarray x.toList (2 * x.toList.length + 2)
    { s with i := 0, last := 0 } []

/-- `arrayParser` with a fresh scratch state and a null element parser (elements
are the raw slices), as used for untyped element recursion. -/
def arrayParserRaw (x : String) : List (ATree String) :=
  (arrayParserFrom id 0 arrayParserState x).1

/-- JS Array.prototype.flat(): splices one level of nesting. -/
def flattenOnce {α : Type} : List (ATree α) → List (ATree α)
  | [] => []
  | ATree.leaf a :: rest => ATree.leaf a :: flattenOnce rest
  | ATree.sub xs :: rest => xs ++ flattenOnce rest

/-! ### JS runtime values

JS numbers are modelled by their canonical decimal representation
`num m e` denoting the rational `m / 10 ^ e`; JS guarantees that the decimal
text a number prints as reparses to the same number, so in the fixed-notation
range the decimal representation is a faithful model.  `nan` models the IEEE
NaN produced by a failed numeric coercion.  A JS `Date` is modelled by its
normalized UTC calendar components (what `toISOString` prints); `invalidDate`
models a `Date` holding NaN.  `bytes` models a binary buffer by its byte
sequence, `obj` a plain object by its ordered property list. -/

inductive JSVal where
  | null
  | undef
  | nan
  | str (s : String)
  | num (m : Int) (e : Nat)
  | bool (b : Bool)
  | bigint (n : Int)
  | date (y mo d h mi s ms : Nat)
  | invalidDate
  | bytes (bs : List Nat)
  | arr (xs : List JSVal)
  | obj (kvs : List (String × JSVal))

/-- JS exceptions, distinguished by constructor. -/
inductive JsErr where
  | error (msg : String)
  | typeError (msg : String)
  | syntaxError (msg : String)
  | rangeError (msg : String)
  deriving DecidableEq

def isUndef : JSVal → Bool
  | .undef => true
  | _ => false

/-! ### Printing: numbers, bigints, dates, JSON text -/

/-- Left-pad decimal digits with zeros to width `w`. -/
def padDigits (w n : Nat) : List Char :=
  List.replicate (w - (natToDigits n).length) '0' ++ natToDigits n

/-- JS number-to-string in fixed decimal notation: the digits of `|m|` padded
to at least `e + 1` digits, with a decimal point before the last `e` digits. -/
def numToString (m : Int) (e : Nat) : String :=
  let ds := padDigits (e + 1) m.natAbs
  (if m < 0 then "-" else "") ++ String.mk (ds.take (ds.length - e)) ++
    (if e = 0 then "" else "." ++ String.mk (ds.drop (ds.length - e)))

/-- Date.prototype.toISOString for years 0..9999: YYYY-MM-DDTHH:MM:SS.mmmZ. -/
def dateToISO (y mo d h mi s ms : Nat) : String :=
  String.mk (padDigits 4 y) ++ "-" ++ String.mk (padDigits 2 mo) ++ "-" ++
    String.mk (padDigits 2 d) ++ "T" ++ String.mk (padDigits 2 h) ++ ":" ++
    String.mk (padDigits 2 mi) ++ ":" ++ String.mk (padDigits 2 s) ++ "." ++
    String.mk (padDigits 3 ms) ++ "Z"

/-- Lowercase hexadecimal digit. -/
def hexDigitChar (n : Nat) : Char :=
  if n < 10 then Char.ofNat (48 + n) else Char.ofNat (87 + n)

/-- JSON.stringify escaping of one string character. -/
def jsonEscapeChar (c : Char) : List Char :=
  if c = '"' then ['\\', '"']
  else if c = '\\' then ['\\', '\\']
  else if c = '\x08' then ['\\', 'b']
  else if c = '\x09' then ['\\', 't']
  else if c = '\x0a' then ['\\', 'n']
  else if c = '\x0c' then ['\\', 'f']
  else if c = '\x0d' then ['\\', 'r']
  else if c.toNat < 32 then
    ['\\', 'u', '0', '0', hexDigitChar (c.toNat / 16), hexDigitChar (c.toNat % 16)]
  else [c]

/-- JSON.stringify rendering of a string literal. -/
def jsonQuote (s : String) : String :=
  "\"" ++ String.mk (s.toList.map jsonEscapeChar).flatten ++ "\""

mutual

/-- JSON.stringify.  `Except` models the TypeError thrown on a BigInt;
the `none` result models JSON.stringify returning undefined (for a native
undefined).  A Date serializes through toJSON as its ISO string (null when
invalid); a binary buffer is array-like and serializes as an index-keyed
object; undefined inside an array becomes null and inside an object the
property is omitted. -/
def jsonStringify : JSVal → Except JsErr (Option String)
  | .null => .ok (some "null")
  | .undef => .ok none
  | .nan => .ok (some "null")
  | .str s => .ok (some (jsonQuote s))
  | .num m e => .ok (some (numToString m e))
  | .bool b => .ok (some (if b then "true" else "false"))
  | .bigint _ => .error (.typeError "Do not know how to serialize a BigInt")
  | .date y mo d h mi s ms => .ok (some (jsonQuote (dateToISO y mo d h mi s ms)))
  | .invalidDate => .ok (some "null")
  | .bytes bs => .ok (some ("\x7b" ++ String.intercalate ","
      (((List.range bs.length).zip bs).map fun p =>
        jsonQuote (natToDecString p.1) ++ ":" ++ natToDecString p.2) ++ "\x7d"))
  | .arr xs => do
    let parts ← jsonElems xs
    .ok (some ("[" ++ String.intercalate "," parts ++ "]"))
  | .obj kvs => do
    let parts ← jsonMembers kvs
    .ok (some ("\x7b" ++ String.intercalate "," parts ++ "\x7d"))

/-- JSON.stringify of array elements (undefined renders as null). -/
def jsonElems : List JSVal → Except JsErr (List String)
  | [] => .ok []
  | v :: rest => do
    let s ← jsonStringify v
    let r ← jsonElems rest
    .ok (s.getD "null" :: r)

/-- JSON.stringify of object members (undefined-valued properties omitted). -/
def jsonMembers : List (String × JSVal) → Except JsErr (List String)
  | [] => .ok []
  | (k, v) :: rest => do
    let s ← jsonStringify v
    let r ← jsonMembers rest
    match s with
    | some sv => .ok ((jsonQuote k ++ ":" ++ sv) :: r)
    | none => .ok r

end

mutual

/-- Embedding of `serialize` (source lines 414-434) applied to a native value:
string identity, number and bigint decimal text, boolean t/f, Date ISO text
(a RangeError on an invalid Date), array as braces around comma-joined
recursively serialized elements, any other object as JSON text.  The switch
has no case for undefined, so serialize returns undefined there (`none`). -/
def serialize : JSVal → Except JsErr (Option String)
  | .str s => .ok (some s)
  | .num m e => .ok (some (numToString m e))
  | .nan => .ok (some "NaN")
  | .bool b => .ok (some (if b then "t" else "f"))
  | .bigint n => .ok (some (intToDecString n))
  | .date y mo d h mi s ms => .ok (some (dateToISO y mo d h mi s ms))
  | .invalidDate => .error (.rangeError "Invalid time value")
  | .arr xs => do
    let parts ← serializeElems xs
    .ok (some ("\x7b" ++ String.intercalate "," parts ++ "\x7d"))
  | .null => jsonStringify .null
  | .bytes bs => jsonStringify (.bytes bs)
  | .obj kvs => jsonStringify (.obj kvs)
  | .undef => .ok none

/-- Array elements under `serialize`: `x.map(serialize).join(",")`; join
renders an undefined entry as the empty string. -/
def serializeElems : List JSVal → Except JsErr (List String)
  | [] => .ok []
  | v :: rest => do
    let s ← serialize v
    let r ← serializeElems rest
    .ok (s.getD "" :: r)

end

/-! ### Parsing: JS numeric coercion, BigInt, hex, dates, JSON -/

def isDigitChar (c : Char) : Bool := 48 ≤ c.toNat ∧ c.toNat ≤ 57

def digitVal (c : Char) : Nat := c.toNat - 48

/-- Value of a decimal digit string, most significant first. -/
def digitsToNat (ds : List Char) : Nat := ds.foldl (fun acc c => 10 * acc + digitVal c) 0

/-- JS whitespace stripped by numeric coercion (the common code points). -/
def isJsSpace (c : Char) : Bool :=
  c = ' ' ∨ c = '\x09' ∨ c = '\x0a' ∨ c = '\x0d' ∨ c = '\x0b' ∨ c = '\x0c'

def jsTrim (cs : List Char) : List Char :=
  ((cs.dropWhile isJsSpace).reverse.dropWhile isJsSpace).reverse

/-- Apply a decimal exponent to a mantissa/scale pair. -/
def applyExp (m : Int) (e : Nat) (ex : Int) : Int × Nat :=
  if 0 ≤ ex then
    let k := ex.toNat
    if e ≤ k then (m * (10 : Int) ^ (k - e), 0) else (m, e - k)
  else (m, e + (-ex).toNat)

/-- Digits, optional point and more digits, as scanned by JS numeric coercion. -/
def parseDecimalCore (cs : List Char) : Option ((Nat × Nat) × List Char) :=
  let p := cs.span isDigitChar
  if p.2.head? = some '.' then
    let q := p.2.tail.span isDigitChar
    if p.1 = [] ∧ q.1 = [] then none
    else some ((digitsToNat (p.1 ++ q.1), q.1.length), q.2)
  else if p.1 = [] then none else some ((digitsToNat p.1, 0), p.2)

/-- Optional exponent part; a present but malformed exponent fails. -/
def parseExpOpt (cs : List Char) : Option (Int × List Char) :=
  match cs with
  | c :: rest =>
    if c = 'e' ∨ c = 'E' then
      let sr : Bool × List Char :=
        if rest.head? = some '+' then (false, rest.tail)
        else if rest.head? = some '-' then (true, rest.tail)
        else (false, rest)
      let q := sr.2.span isDigitChar
      if q.1 = [] then none
      else some ((if sr.1 then -(digitsToNat q.1 : Int) else (digitsToNat q.1 : Int)), q.2)
    else some (0, cs)
  | [] => some (0, [])

/-- JS unary plus on a string (`+value`): trim, empty coerces to 0, otherwise
an optionally signed decimal with optional fraction and exponent consuming the
whole string; anything else is NaN (`none`).  (The hexadecimal/Infinity forms
JS also accepts are not modelled; no claim exercises them.) -/
def jsToNumber (str : String) : Option (Int × Nat) :=
  let cs := jsTrim str.toList
  if cs = [] then some (0, 0)
  else
    let sc : Bool × List Char :=
      if cs.head? = some '-' then (true, cs.tail)
      else if cs.head? = some '+' then (false, cs.tail)
      else (false, cs)
    match parseDecimalCore sc.2 with
    | none => none
    | some ((m0, e), rest) =>
      match parseExpOpt rest with
      | none => none
      | some (ex, rest2) =>
        if rest2 = [] then
          some (applyExp (if sc.1 then -(m0 : Int) else (m0 : Int)) e ex)
        else none

/-- JS BigInt(string): trim, empty is 0, otherwise an optionally signed digit
string consuming the whole input; anything else throws a SyntaxError. -/
def parseBigInt (str : String) : Except JsErr Int :=
  let cs := jsTrim str.toList
  if cs = [] then .ok 0
  else
    let sc : Bool × List Char :=
      if cs.head? = some '-' then (true, cs.tail)
      else if cs.head? = some '+' then (false, cs.tail)
      else (false, cs)
    let q := sc.2.span isDigitChar
    if q.1 = [] ∨ q.2 ≠ [] then .error (.syntaxError "Cannot convert to a BigInt")
    else .ok (if sc.1 then -(digitsToNat q.1 : Int) else (digitsToNat q.1 : Int))

def hexVal? (c : Char) : Option Nat :=
  if 48 ≤ c.toNat ∧ c.toNat ≤ 57 then some (c.toNat - 48)
  else if 97 ≤ c.toNat ∧ c.toNat ≤ 102 then some (c.toNat - 87)
  else if 65 ≤ c.toNat ∧ c.toNat ≤ 70 then some (c.toNat - 55)
  else none

/-- Node Buffer.from(s, hex): decode leading hexadecimal pairs, stopping at
the first invalid pair or odd trailing digit. -/
def hexDecode : List Char → List Nat
  | a :: b :: rest =>
    match hexVal? a, hexVal? b with
    | some x, some y => (16 * x + y) :: hexDecode rest
    | _, _ => []
  | _ => []

/-- Fixed-width decimal field of an ISO date string. -/
def parseFixedNat (w : Nat) (cs : List Char) : Option (Nat × List Char) :=
  let ds := cs.take w
  if ds.length = w ∧ ds.all isDigitChar then some (digitsToNat ds, cs.drop w) else none

def expectChar (c : Char) : List Char → Option (List Char)
  | d :: rest => if d = c then some rest else none
  | [] => none

/-- The YYYY-MM-DD prefix of an ISO date string. -/
def parseIsoDatePart (cs : List Char) : Option ((Nat × Nat × Nat) × List Char) :=
  (parseFixedNat 4 cs).bind fun py =>
  (expectChar '-' py.2).bind fun r1 =>
  (parseFixedNat 2 r1).bind fun pmo =>
  (expectChar '-' pmo.2).bind fun r2 =>
  (parseFixedNat 2 r2).bind fun pd =>
  some ((py.1, pmo.1, pd.1), pd.2)

/-- The HH:MM:SS.mmmZ suffix of an ISO date string. -/
def parseIsoTimePart (cs : List Char) : Option ((Nat × Nat × Nat × Nat) × List Char) :=
  (parseFixedNat 2 cs).bind fun ph =>
  (expectChar ':' ph.2).bind fun r4 =>
  (parseFixedNat 2 r4).bind fun pmi =>
  (expectChar ':' pmi.2).bind fun r5 =>
  (parseFixedNat 2 r5).bind fun ps =>
  (expectChar '.' ps.2).bind fun r6 =>
  (parseFixedNat 3 r6).bind fun pms =>
  (expectChar 'Z' pms.2).bind fun r7 =>
  some ((ph.1, pmi.1, ps.1, pms.1), r7)

/-- Syntactic field ranges accepted by the ISO date-time parser. -/
def dateFieldsOk (mo d h mi s : Nat) : Bool :=
  decide (1 ≤ mo) && decide (mo ≤ 12) && decide (1 ≤ d) && decide (d ≤ 31) &&
    decide (h ≤ 23) && decide (mi ≤ 59) && decide (s ≤ 59)

/-- The date-time components of a strict ISO YYYY-MM-DDTHH:MM:SS.mmmZ string
with in-range fields. -/
def jsDateParseCore (cs : List Char) : Option (Nat × Nat × Nat × Nat × Nat × Nat × Nat) :=
  (parseIsoDatePart cs).bind fun pd =>
  (expectChar 'T' pd.2).bind fun r =>
  (parseIsoTimePart r).bind fun pt =>
  match pd.1, pt.1 with
  | (y, mo, d), (h, mi, s, ms) =>
    if pt.2 = [] && dateFieldsOk mo d h mi s then some (y, mo, d, h, mi, s, ms)
    else none

/-- JS new Date(string) restricted to the strict ISO form `toISOString`
produces; any other text is modelled as an Invalid Date. -/
def jsDateParse (str : String) : JSVal :=
  match jsDateParseCore str.toList with
  | some (y, mo, d, h, mi, s, ms) => .date y mo d h mi s ms
  | none => .invalidDate

def isJsonWs (c : Char) : Bool := c = ' ' ∨ c = '\x09' ∨ c = '\x0a' ∨ c = '\x0d'

def skipWs (cs : List Char) : List Char := cs.dropWhile isJsonWs

/-- JSON string body after the opening quote: plain characters, backslash
escapes, and 4-hex-digit unicode escapes; raw control characters are
rejected.  The accumulator is kept reversed. -/
def parseJsonStringAux : Nat → List Char → List Char → Option (String × List Char)
  | 0, _, _ => none
  | fuel+1, acc, cs =>
    match cs with
    | [] => none
    | c :: rest =>
      if c = '"' then some (String.mk acc.reverse, rest)
      else if c = '\\' then
        match rest with
        | 'u' :: h1 :: h2 :: h3 :: h4 :: rest2 =>
          (hexVal? h1).bind fun a =>
          (hexVal? h2).bind fun b =>
          (hexVal? h3).bind fun cc =>
          (hexVal? h4).bind fun d =>
          parseJsonStringAux fuel (Char.ofNat (4096 * a + 256 * b + 16 * cc + d) :: acc) rest2
        | d :: rest2 =>
          let dec : Option Char :=
            if d = '"' then some '"'
            else if d = '\\' then some '\\'
            else if d = '/' then some '/'
            else if d = 'b' then some '\x08'
            else if d = 'f' then some '\x0c'
            else if d = 'n' then some '\x0a'
            else if d = 'r' then some '\x0d'
            else if d = 't' then some '\x09'
            else none
          match dec with
          | some ch => parseJsonStringAux fuel (ch :: acc) rest2
          | none => none
        | [] => none
      else if c.toNat < 32 then none
      else parseJsonStringAux fuel (c :: acc) rest

def parseJsonString (cs : List Char) : Option (String × List Char) :=
  parseJsonStringAux (cs.length + 1) [] cs

/-- JSON integer part: 0, or a nonzero digit followed by digits. -/
def parseJsonIntPart : List Char → Option (List Char × List Char)
  | [] => none
  | c :: rest =>
    if c = '0' then some ([c], rest)
    else if isDigitChar c then
      let q := rest.span isDigitChar
      some (c :: q.1, q.2)
    else none

/-- JSON number grammar: -? int frac? exp?. -/
def parseJsonNumber (cs : List Char) : Option ((Int × Nat) × List Char) :=
  let sc : Bool × List Char :=
    if cs.head? = some '-' then (true, cs.tail) else (false, cs)
  (parseJsonIntPart sc.2).bind fun ipr =>
  (if ipr.2.head? = some '.' then
    let q := ipr.2.tail.span isDigitChar
    if q.1 = [] then none else some (q.1, q.2)
  else some (([] : List Char), ipr.2)).bind fun fpr =>
  (parseExpOpt fpr.2).bind fun exr =>
  some (applyExp (if sc.1 then -(digitsToNat (ipr.1 ++ fpr.1) : Int)
      else (digitsToNat (ipr.1 ++ fpr.1) : Int)) fpr.1.length exr.1, exr.2)

mutual

/-- JSON.parse value parser over a fuel bound; each recursive call consumes at
least one input character first, so any fuel exceeding the input length
suffices. -/
def jsonParseVal : Nat → List Char → Option (JSVal × List Char)
  | 0, _ => none
  | fuel+1, cs0 =>
    match skipWs cs0 with
    | [] => none
    | c :: rest =>
      if c = 'n' then
        match rest with
        | 'u' :: 'l' :: 'l' :: r => some (.null, r)
        | _ => none
      else if c = 't' then
        match rest with
        | 'r' :: 'u' :: 'e' :: r => some (.bool true, r)
        | _ => none
      else if c = 'f' then
        match rest with
        | 'a' :: 'l' :: 's' :: 'e' :: r => some (.bool false, r)
        | _ => none
      else if c = '"' then
        (parseJsonString rest).bind fun sr => some (.str sr.1, sr.2)
      else if c = '[' then
        let cs1 := skipWs rest
        if cs1.head? = some ']' then some (.arr [], cs1.tail)
        else
          (jsonParseVal fuel cs1).bind fun vr =>
          (jsonParseElems fuel vr.2).bind fun vsr =>
          let cs2 := skipWs vsr.2
          if cs2.head? = some ']' then some (.arr (vr.1 :: vsr.1), cs2.tail)
          else none
      else if c = '{' then
        let cs1 := skipWs rest
        if cs1.head? = some '}' then some (.obj [], cs1.tail)
        else
          (jsonParsePair fuel cs1).bind fun pr =>
          (jsonParseMembers fuel pr.2).bind fun psr =>
          let cs2 := skipWs psr.2
          if cs2.head? = some '}' then some (.obj (pr.1 :: psr.1), cs2.tail)
          else none
      else
        (parseJsonNumber (c :: rest)).bind fun pr => some (.num pr.1.1 pr.1.2, pr.2)

/-- Trailing array elements: a possibly empty sequence of comma-value. -/
def jsonParseElems : Nat → List Char → Option (List JSVal × List Char)
  | 0, _ => none
  | fuel+1, cs =>
    if (skipWs cs).head? = some ',' then
      (jsonParseVal fuel (skipWs cs).tail).bind fun vr =>
      (jsonParseElems fuel vr.2).bind fun vsr =>
      some (vr.1 :: vsr.1, vsr.2)
    else some ([], cs)

/-- One object member: key string, colon, value. -/
def jsonParsePair : Nat → List Char → Option ((String × JSVal) × List Char)
  | 0, _ => none
  | fuel+1, cs =>
    if (skipWs cs).head? = some '"' then
      (parseJsonString (skipWs cs).tail).bind fun kr =>
      if (skipWs kr.2).head? = some ':' then
        (jsonParseVal fuel (skipWs kr.2).tail).bind fun vr =>
        some ((kr.1, vr.1), vr.2)
      else none
    else none

/-- Trailing object members: a possibly empty sequence of comma-member. -/
def jsonParseMembers : Nat → List Char → Option (List (String × JSVal) × List Char)
  | 0, _ => none
  | fuel+1, cs =>
    if (skipWs cs).head? = some ',' then
      (jsonParsePair fuel (skipWs cs).tail).bind fun pr =>
      (jsonParseMembers fuel pr.2).bind fun psr =>
      some (pr.1 :: psr.1, psr.2)
    else some ([], cs)

end

/-- JSON.parse: a single value surrounded by whitespace; a SyntaxError
otherwise. -/
def jsonParse (s : String) : Except JsErr JSVal :=
  let cs := s.toList
  match jsonParseVal (cs.length + 1) cs with
  | some (v, rest) =>
    if skipWs rest = [] then .ok v else .error (.syntaxError "Unexpected token in JSON")
  | none => .error (.syntaxError "Unexpected token in JSON")

/-! ### Type inference (source: inferType, inferScalarType, firstIsString) -/

/-- Embedding of `inferScalarType`: a switch on `typeof`.  A Date, buffer or
array reaching it is a plain object to `typeof`; `bigint` and `undefined` hit
no case and fall through to 0. -/
def inferScalarType : JSVal → Nat
  | .null => 0
  | .str _ => 25
  | .num m e => if (10 : Int) ^ e ∣ m then 23 else 700
  | .nan => 700
  | .bool _ => 16
  | .obj _ => 114
  | .arr _ => 114
  | .date _ _ _ _ _ _ _ => 114
  | .invalidDate => 114
  | .bytes _ => 114
  | .bigint _ => 0
  | .undef => 0

/-- Embedding of `inferType` on a native value: Date 1184, buffer 17, boolean
16, bigint 20, an array defers to its first element (an empty array reaches
`inferType(undefined) = 0`), everything else goes to `inferScalarType`. -/
def inferType : JSVal → Nat
  | .date _ _ _ _ _ _ _ => 1184
  | .invalidDate => 1184
  | .bytes _ => 17
  | .bool _ => 16
  | .bigint _ => 20
  | .arr [] => 0
  | .arr (x :: _) => inferType x
  | v => inferScalarType v

/-- Embedding of `firstIsString`: descend into first elements; a string leaf
gives the text-array type 1009, anything else 0. -/
def firstIsString : JSVal → Nat
  | .arr [] => 0
  | .arr (x :: _) => firstIsString x
  | .str _ => 1009
  | _ => 0

/-! ### Value wrappers and the composition engine
(source: Parameter, Query, stringify, stringifyValue, fragment, handleValue)

Template arguments reaching `handleValue` are either a `Parameter` wrapper
(the Query constructor wraps every non-wrapper argument in one) or, on the
keyword-builder paths, a raw record value; `PValue` is that distinction.
Identifier arguments carry their already-escaped text.  Keyword builders are
modelled separately (`valuesFn`, `inFn`); the embedded `Arg` type covers the
parameter, identifier and nested-fragment resolution paths of
`stringifyValue`. -/

inductive PValue where
  | parameter (value : JSVal) (type : Nat) (arry : Option (List Nat))
  | raw (v : JSVal)

/-- The `new Parameter(x)` wrapping applied by the Query constructor:
type defaults to `inferType(x)`, and the element-wise type list is computed
for array values. -/
def mkParameter (v : JSVal) : PValue :=
  .parameter v (inferType v)
    (match v with
     | .arr xs => some (xs.map inferType)
     | _ => none)

/-- The `sql.array(x)` helper: an explicit Parameter whose type is
`inferType(x) || 25` for nonempty x and 0 for empty x. -/
def sqlArray (xs : List JSVal) : PValue :=
  .parameter (.arr xs)
    (if xs.length ≠ 0 then (if inferType (.arr xs) = 0 then 25 else inferType (.arr xs)) else 0)
    (some (xs.map inferType))

/-- The `options.transform` configuration; the source always composes with a
bare options object, so `transform` is absent (`none`).  `undefinedValue`
models the value of `options.transform.undefined`, with `JSVal.undef` for an
absent property. -/
structure TransformConfig where
  undefinedValue : JSVal

structure Options where
  transform : Option TransformConfig

def emptyOptions : Options := { transform := none }

def pvalueOf : PValue → JSVal
  | .parameter v _ _ => v
  | .raw v => v

/-- JS `a || b` on numbers (0 is falsy). -/
def jsOrNat (a b : Nat) : Nat := if a = 0 then b else a

/-- JS `a[i] || b` where the lookup may be out of bounds (undefined is falsy). -/
def jsOrOpt (a : Option Nat) (b : Nat) : Nat :=
  match a with
  | some v => if v = 0 then b else v
  | none => b

/-- The value pushed onto `parameters` by `handleValue`. -/
def pushedValue : PValue → JSVal := pvalueOf

/-- The type pushed onto `types` by `handleValue`:
for a Parameter with an element-type list,
`x.array[x.type || inferType(x.value)] || x.type || firstIsString(x.value)`;
for other Parameters the stated type; for a raw value its inferred type. -/
def pushedType : PValue → Nat
  | .parameter v ty arry =>
    (match arry with
     | some a => jsOrOpt (a.get? (jsOrNat ty (inferType v))) (jsOrNat ty (firstIsString v))
     | none => ty)
  | .raw v => inferType v

/-- Embedding of `handleValue`.  An undefined value first reads
`options.transform.undefined`: with no transform configured this is a
TypeError (reading a property of undefined); with a transform, a raw value is
replaced by the configured substitute, while the Parameter branch only
assigns `x.value` and leaves the local `value` undefined, so the
"Undefined values are not allowed" error is thrown; the same error is thrown
when no substitute is configured.  Otherwise the value and its type are
appended and the placeholder is the new length of `types`. -/
def handleValue (pv : PValue) (parameters : List JSVal) (types : List Nat) (o : Options) :
    Except JsErr (String × List JSVal × List Nat) :=
  (if isUndef (pvalueOf pv) then
    match o.transform with
    | none => Except.error (.typeError "Cannot read properties of undefined (reading undefined)")
    | some t =>
      match pv with
      | .parameter _ _ _ => Except.error (.error "Undefined values are not allowed")
      | .raw _ =>
        if isUndef t.undefinedValue then Except.error (.error "Undefined values are not allowed")
        else Except.ok (PValue.raw t.undefinedValue)
  else Except.ok pv).bind fun pv1 =>
  .ok ("$" ++ natToDecString (types.length + 1),
       parameters ++ [pushedValue pv1], types ++ [pushedType pv1])

mutual

/-- A resolved template argument: a value contributing a parameter slot, an
escaped identifier, a nested query fragment, or an array of fragments. -/
inductive Arg where
  | pval (pv : PValue)
  | ident (escaped : String)
  | frag (q : SqlQuery)
  | fragList (qs : List SqlQuery)

/-- A tagged-template query: the head literal segment followed by
argument/segment pairs (the source guarantees one more literal segment than
arguments). -/
inductive SqlQuery where
  | mk (head : String) (rest : List (Arg × String))

end

mutual

/-- Embedding of `stringify`: starting from the head segment, resolve each
argument and append its fragment and the following literal segment,
threading the parameter and type accumulators. -/
def stringifyQuery : SqlQuery → List JSVal → List Nat → Options →
    Except JsErr (String × List JSVal × List Nat)
  | .mk head rest, ps, ts, o => stringifyRest rest head ps ts o

def stringifyRest : List (Arg × String) → String → List JSVal → List Nat → Options →
    Except JsErr (String × List JSVal × List Nat)
  | [], acc, ps, ts, _ => .ok (acc, ps, ts)
  | (a, snext) :: rest, acc, ps, ts, o =>
    (stringifyValue acc a ps ts o).bind fun r =>
    stringifyRest rest (acc ++ r.1 ++ snext) r.2.1 r.2.2 o

/-- Embedding of `stringifyValue` on the wrapper kinds (the dynamic-builder
dispatch is modelled separately): a nested Query composes against the same
accumulators, an Identifier splices its text, a list of queries splices each
fragment behind a space, and anything else goes to `handleValue`. -/
def stringifyValue : String → Arg → List JSVal → List Nat → Options →
    Except JsErr (String × List JSVal × List Nat)
  | _, .pval pv, ps, ts, o => handleValue pv ps ts o
  | _, .ident t, ps, ts, _ => .ok (t, ps, ts)
  | _, .frag q, ps, ts, o => stringifyQuery q ps ts o
  | _, .fragList qs, ps, ts, o => stringifyFrags qs "" ps ts o

/-- The `value.reduce((acc, x) => acc + " " + fragment(x, ...), "")` fold. -/
def stringifyFrags : List SqlQuery → String → List JSVal → List Nat → Options →
    Except JsErr (String × List JSVal × List Nat)
  | [], acc, ps, ts, _ => .ok (acc, ps, ts)
  | q :: qs, acc, ps, ts, o =>
    (stringifyQuery q ps ts o).bind fun r =>
    stringifyFrags qs (acc ++ " " ++ r.1) r.2.1 r.2.2 o

end

/-- The prepared statement sent to the transport. -/
structure Payload where
  query : String
  params : List (Option String)
  types : List Nat
  deriving DecidableEq

/-- The `parameters.map(serialize)` pass of `prepare()`; a throw inside
serialize propagates. -/
def serializeParams : List JSVal → Except JsErr (List (Option String))
  | [] => .ok []
  | v :: vs =>
    (serialize v).bind fun s =>
    (serializeParams vs).bind fun rest =>
    .ok (s :: rest)

/-- Embedding of `Query.prepare()`: fresh accumulators, compose with a bare
options object, then serialize the collected parameters. -/
def prepareQ (q : SqlQuery) : Except JsErr Payload :=
  (stringifyQuery q [] [] emptyOptions).bind fun r =>
  (serializeParams r.2.1).bind fun params =>
  .ok { query := r.1, params := params, types := r.2.2 }

/-! ### Deserialization (source: deserialize, processResult helpers) -/

/-- `deserialize(x, 0)`: numeric coercion, the element parser used for
array-typed cells. -/
def deserialize0 (s : String) : JSVal :=
  match jsToNumber s with
  | some (m, e) => .num m e
  | none => .nan

mutual

def treeToVal : ATree JSVal → JSVal
  | .leaf v => v
  | .sub xs => .arr (treeListToVal xs)

def treeListToVal : List (ATree JSVal) → List JSVal
  | [] => []
  | t :: ts => treeToVal t :: treeListToVal ts

end

/-- Embedding of `deserialize` (source lines 56-86), the switch on the data
type id of a result cell.  BigInt and JSON.parse failures surface as thrown
errors; every other branch returns a value.  The array branch runs the array
parser with untyped element recursion and flattens one level. -/
def deserialize (value : String) (dataTypeId : Nat) : Except JsErr JSVal :=
  if dataTypeId = 0 ∨ dataTypeId = 21 ∨ dataTypeId = 23 ∨ dataTypeId = 26 ∨
      dataTypeId = 700 ∨ dataTypeId = 701 then
    .ok (deserialize0 value)
  else if dataTypeId = 17 then .ok (.bytes (hexDecode (value.toList.drop 2)))
  else if dataTypeId = 16 then .ok (.bool (value = "t"))
  else if dataTypeId = 20 then (parseBigInt value).map JSVal.bigint
  else if dataTypeId = 25 then .ok (.str value)
  else if dataTypeId = 1184 ∨ dataTypeId = 1082 ∨ dataTypeId = 1114 then .ok (jsDateParse value)
  else if dataTypeId = 3802 ∨ dataTypeId = 114 then jsonParse value
  else if dataTypeId = 1007 then
    .ok (.arr (treeListToVal (flattenOnce (arrayParserFrom deserialize0 0 arrayParserState value).1)))
  else .ok (.str value)

/-- The round trip of spec section 8: serialize a native value, then
deserialize the text under the inferred type tag.  `none` when serialize
produced no text at all. -/
def roundTrip (v : JSVal) : Option (Except JsErr JSVal) :=
  match serialize v with
  | .ok (some s) => some (deserialize s (inferType v))
  | _ => none

/-! ### Keyword builders `values` and `in` (source: values, valuesBuilder, builders.in)

Record values handed to the builders are native values (`JSVal`), so the
`stringifyValue` dispatch inside `valuesBuilder` always reaches
`handleValue` with a raw value.  The rest argument is modelled already
flattened (`rest.flat()` of column names). -/

def isJsArray : JSVal → Bool
  | .arr _ => true
  | _ => false

/-- Parse of a nonempty all-digit property key, for array indexing. -/
def decKeyToNat : String → Option Nat := fun s =>
  let cs := s.toList
  if cs ≠ [] ∧ cs.all isDigitChar then some (digitsToNat cs) else none

/-- JS property read `v[key]` for the value shapes the builders touch. -/
def jsGetProp (v : JSVal) (key : String) : JSVal :=
  match v with
  | .obj kvs => ((kvs.find? (fun kv => kv.1 == key)).map (fun kv => kv.2)).getD .undef
  | .arr xs =>
    (match decKeyToNat key with
     | some i => (xs.get? i).getD .undef
     | none => .undef)
  | _ => (.undef)

/-- JS Object.keys for the value shapes the builders touch. -/
def jsObjectKeys : JSVal → List String
  | .obj kvs => kvs.map (fun kv => kv.1)
  | .arr xs => (List.range xs.length).map natToDecString
  | _ => []

/-- The `columns.map(col => stringifyValue("values", row[col], ...))` pass of
`valuesBuilder` over one row. -/
def valuesCols : List String → JSVal → List JSVal → List Nat → Options →
    Except JsErr (List String × List JSVal × List Nat)
  | [], _, ps, ts, _ => .ok ([], ps, ts)
  | c :: cols, row, ps, ts, o =>
    (handleValue (.raw (jsGetProp row c)) ps ts o).bind fun r =>
    (valuesCols cols row r.2.1 r.2.2 o).bind fun rr =>
    .ok (r.1 :: rr.1, rr.2)

/-- The row pass of `valuesBuilder`: one parenthesized value list per row. -/
def valuesRows : List JSVal → List String → List JSVal → List Nat → Options →
    Except JsErr (List String × List JSVal × List Nat)
  | [], _, ps, ts, _ => .ok ([], ps, ts)
  | row :: rows, cols, ps, ts, o =>
    (valuesCols cols row ps ts o).bind fun r =>
    (valuesRows rows cols r.2.1 r.2.2 o).bind fun rr =>
    .ok (("(" ++ String.intercalate "," r.1 ++ ")") :: rr.1, rr.2)

/-- Embedding of the builder function `values(first, rest, parameters, types,
options)`: `multi` when `first[0]` is an array; columns from the flattened
rest or from `Object.keys(multi ? first[0] : first)`; then `valuesBuilder`
over `multi ? first : [first]`. -/
def valuesFn (first : JSVal) (rest : List String) (ps : List JSVal) (ts : List Nat)
    (o : Options) : Except JsErr (String × List JSVal × List Nat) :=
  let multi := isJsArray (jsGetProp first "0")
  let columns := if rest ≠ [] then rest
    else jsObjectKeys (if multi then jsGetProp first "0" else first)
  (if multi then
    match first with
    | .arr xs => Except.ok xs
    | _ => Except.error (.typeError "first.map is not a function")
  else Except.ok [first]).bind fun rows =>
  (valuesRows rows columns ps ts o).bind fun r =>
  .ok (String.intercalate "," r.1, r.2)

/-- Embedding of the `in` builder: run `values` and replace an empty
parenthesis pair by `(null)`. -/
def inFn (first : JSVal) (rest : List String) (ps : List JSVal) (ts : List Nat)
    (o : Options) : Except JsErr (String × List JSVal × List Nat) :=
  (valuesFn first rest ps ts o).bind fun r =>
  .ok ((if r.1 = "()" then "(null)" else r.1), r.2)

/-! ### Batch submission (source: sql.begin) and query consumption
(source: Query.then/catch/finally and Query.handle) -/

/-- An element of the array handed to `sql.begin`. -/
inductive BeginItem where
  | query (q : SqlQuery)
  | notQuery

/-- The resolved `itemsOrFn` argument of `sql.begin`: a plain array, a
Promise (for instance a single not-yet-resolved query, or the result of an
async callback), or any other non-array value. -/
inductive BeginInput where
  | items (xs : List BeginItem)
  | promiseLike
  | notArray

/-- Embedding of `sql.begin`: reject a Promise, reject a non-array, prepare
each element rejecting any non-Query; only a fully prepared list is handed to
`execute` (the network call), which is the `.ok` result. -/
def beginPrepareAll : List BeginItem → Except JsErr (List Payload)
  | [] => .ok []
  | .query q :: rest =>
    (prepareQ q).bind fun p =>
    (beginPrepareAll rest).bind fun ps =>
    .ok (p :: ps)
  | .notQuery :: _ => .error (.error "Invalid query, expected a Query object")

def beginFn : BeginInput → Except JsErr (List Payload)
  | .promiseLike => .error (.error "Invalid transaction, interactive transactions are not supported")
  | .notArray => .error (.error "Invalid transaction, expected an array of queries")
  | .items xs => beginPrepareAll xs

/-- Embedding of `Query.handle()`: compose the query and submit the payload
to the handler.  The submission log models the network calls made so far for
this query instance. -/
def handleQ (q : SqlQuery) (submitted : List Payload) : Except JsErr (List Payload) :=
  (prepareQ q).bind fun p => .ok (submitted ++ [p])

/-- Embedding of `Query.then()`: it unconditionally calls `handle()` before
delegating to the promise machinery — there is no finalized flag anywhere in
the class, so every `then`/`catch`/`finally` attachment re-runs
compose-and-submit. -/
def thenQ (q : SqlQuery) (submitted : List Payload) : Except JsErr (List Payload) :=
  handleQ q submitted

/-- Two consumptions of the same query instance (for instance awaiting it
twice). -/
def consumeTwice (q : SqlQuery) : Except JsErr (List Payload) :=
  (thenQ q []).bind fun l1 => thenQ q l1

/-! ### Named wire type identifiers, from the source's OID table comment -/

def oidUntyped : Nat := 0
def oidBool : Nat := 16
def oidBytea : Nat := 17
def oidInt8 : Nat := 20
def oidInt4 : Nat := 23
def oidText : Nat := 25
def oidFloat4 : Nat := 700
def oidFloat8 : Nat := 701
def oidTimestamptz : Nat := 1184
def oidJsonb : Nat := 114

/-- `inferType` applied to a possibly wrapped argument: an explicit Parameter
reports its stated type, a native value is inferred. -/
def inferTypeArg : PValue → Nat
  | .parameter _ ty _ => ty
  | .raw v => inferType v

/-! ### Specification-side characterization of template composition

`specTextQ q n` renders the composed text of a template given that `n`
parameters were already numbered, emitting placeholders `$(n+1), $(n+2), ...`
sequentially at the parameter positions in depth-first left-to-right template
order; `flatParamsQ` is the matching depth-first list of parameter values.
These are the spec's description of the ordering guarantee, to be compared
with the accumulator-threading composer embedded above. -/

mutual

def specTextQ : SqlQuery → Nat → String × Nat
  | .mk head rest, n => specTextRest rest head n

def specTextRest : List (Arg × String) → String → Nat → String × Nat
  | [], acc, n => (acc, n)
  | (a, s) :: rest, acc, n =>
    let r := specTextArg a n
    specTextRest rest (acc ++ r.1 ++ s) r.2

def specTextArg : Arg → Nat → String × Nat
  | .pval _, n => ("$" ++ natToDecString (n + 1), n + 1)
  | .ident t, n => (t, n)
  | .frag q, n => specTextQ q n
  | .fragList qs, n => specTextFrags qs "" n

def specTextFrags : List SqlQuery → String → Nat → String × Nat
  | [], acc, n => (acc, n)
  | q :: qs, acc, n =>
    let r := specTextQ q n
    specTextFrags qs (acc ++ " " ++ r.1) r.2

end

mutual

def flatParamsQ : SqlQuery → List PValue
  | .mk _ rest => flatParamsRest rest

def flatParamsRest : List (Arg × String) → List PValue
  | [] => []
  | (a, _) :: rest => flatParamsArg a ++ flatParamsRest rest

def flatParamsArg : Arg → List PValue
  | .pval pv => [pv]
  | .ident _ => []
  | .frag q => flatParamsQ q
  | .fragList qs => flatParamsFrags qs

def flatParamsFrags : List SqlQuery → List PValue
  | [] => []
  | q :: qs => flatParamsQ q ++ flatParamsFrags qs

end

/-- Serialization of a value succeeded (did not throw). -/
def serOk (v : JSVal) : Bool :=
  match serialize v with
  | .ok _ => true
  | .error _ => false

/-- The text serialize produced for a value (none when serialize returned
undefined or threw). -/
def getSer (v : JSVal) : Option String :=
  match serialize v with
  | .ok o => o
  | .error _ => none

/-- A result is an error. -/
def isErrB {ε α : Type} : Except ε α → Bool
  | .error _ => true
  | .ok _ => false

/-! ### State-sensitivity of the array parser scratch state -/

/-- Whether a previous-character value blocks an unquoted element boundary
(the only way `p` is ever consulted). -/
def pBlocks (p : Option Char) : Bool := p == some '}' || p == some '"'

/-- States that the loop cannot distinguish: equal scan position, element
offset, quoted flag and accumulated string, and previous characters that
agree on `pBlocks`.  The current-character fields are write-before-read and
unconstrained. -/
def apEquiv (s1 s2 : APState) : Prop :=
  s1.i = s2.i ∧ s1.last = s2.last ∧ s1.quoted = s2.quoted ∧ s1.str = s2.str ∧
    pBlocks s1.p = pBlocks s2.p

/-! ### JSON-representable values -/

def keysNodup : List String → Bool
  | [] => true
  | k :: ks => !(ks.contains k) && keysNodup ks

mutual

/-- Values JSON.stringify and JSON.parse round-trip structurally: null,
booleans, strings, numbers, and nested arrays and objects of such, with
pairwise distinct object keys (JS objects cannot hold duplicate keys). -/
def jsonRep : JSVal → Bool
  | .null => true
  | .bool _ => true
  | .str _ => true
  | .num _ _ => true
  | .arr xs => jsonRepList xs
  | .obj kvs => keysNodup (kvs.map (fun kv => kv.1)) && jsonRepPairs kvs
  | _ => false

def jsonRepList : List JSVal → Bool
  | [] => true
  | v :: vs => jsonRep v && jsonRepList vs

def jsonRepPairs : List (String × JSVal) → Bool
  | [] => true
  | (_, v) :: kvs => jsonRep v && jsonRepPairs kvs

end

/-- A concrete two-level template used to instantiate general theorems:
the outer template embeds a number parameter and a nested fragment holding a
string parameter. -/
def exampleNestedQuery : SqlQuery :=
  .mk "a " [(.pval (mkParameter (.num 1 0)), " b "),
    (.frag (.mk "c " [(.pval (mkParameter (.str "x")), "")]), " d")]

/-! ## Theorems -/

/-- C2 counterexample: the value 1.5 (`num 15 1`) is not integer-valued, yet
type inference tags it 700, which the source's own OID table names float4,
not float8 (701) as the claim states. -/
theorem claim_C2_counterexample :
    ¬ ((10 : Int) ^ 1 ∣ 15) ∧ inferType (.num 15 1) = oidFloat4 ∧
      inferType (.num 15 1) ≠ oidFloat8 := by
  refine ⟨by decide, rfl, by decide⟩

/-- C2 (amended): the type-inference mapping as implemented: null untyped,
Date timestamptz, buffer bytea, boolean bool, integer-valued number int4,
non-integer number float4 (700; the spec said float8), bigint int8, an array
the type of its first element with the empty array untyped, a plain object
jsonb (114 in the source's naming), a string text; and an explicit
Parameter's stated type identifier always overrides inference. -/
theorem claim_C2_amended :
    inferType .null = oidUntyped ∧
    (∀ y mo d h mi s ms, inferType (.date y mo d h mi s ms) = oidTimestamptz) ∧
    (∀ bs, inferType (.bytes bs) = oidBytea) ∧
    (∀ b, inferType (.bool b) = oidBool) ∧
    (∀ m e, inferType (.num m e) =
      if (10 : Int) ^ e ∣ m then oidInt4 else oidFloat4) ∧
    (∀ n, inferType (.bigint n) = oidInt8) ∧
    (∀ x xs, inferType (.arr (x :: xs)) = inferType x) ∧
    inferType (.arr []) = oidUntyped ∧
    (∀ kvs, inferType (.obj kvs) = oidJsonb) ∧
    (∀ s, inferType (.str s) = oidText) ∧
    (∀ v ty arry, inferTypeArg (.parameter v ty arry) = ty) := by
  exact ⟨rfl, fun _ _ _ _ _ _ _ => rfl, fun _ => rfl, fun _ => rfl, fun _ _ => rfl,
    fun _ => rfl, fun _ _ => rfl, rfl, fun _ => rfl, fun _ => rfl, fun _ _ _ => rfl⟩

/-- C5 counterexample: parsing the doubled-quote literal does not yield the
single element the claim states. -/
theorem claim_C5_counterexample :
    flattenOnce (arrayParserRaw "\x7b\"a\"\"b\"\x7d") ≠ [ATree.leaf "a\"b"] := by
  rw [show flattenOnce (arrayParserRaw "\x7b\"a\"\"b\"\x7d") =
      [ATree.leaf "a", ATree.leaf "", ATree.leaf "\"\x7d", ATree.leaf "\"\x7d"] from rfl]
  simp

/-- C5 (amended): parsing a flat literal yields its elements, parsing a
nested literal yields nested (not flattened) sequences; but a doubled quote
inside a quoted element terminates the element rather than escaping the
quote, so the doubled-quote literal parses to four elements, while the
backslash-escaped literal does yield the single element with an embedded
quote. -/
theorem claim_C5_amended :
    flattenOnce (arrayParserRaw "\x7b1,2,3\x7d") =
      [ATree.leaf "1", ATree.leaf "2", ATree.leaf "3"] ∧
    flattenOnce (arrayParserRaw "\x7b\x7b1,2\x7d,\x7b3,4\x7d\x7d") =
      [ATree.sub [ATree.leaf "1", ATree.leaf "2"],
       ATree.sub [ATree.leaf "3", ATree.leaf "4"]] ∧
    flattenOnce (arrayParserRaw "\x7b\"a\"\"b\"\x7d") =
      [ATree.leaf "a", ATree.leaf "", ATree.leaf "\"\x7d", ATree.leaf "\"\x7d"] ∧
    flattenOnce (arrayParserRaw "\x7b\"a\\\"b\"\x7d") = [ATree.leaf "a\"b"] :=
  ⟨rfl, rfl, rfl, rfl⟩

/-- C6: the `in` builder applied to an empty record or an empty list renders
exactly (null), never the empty parenthesis pair, and appends no
parameters. -/
theorem claim_C6_in_empty :
    (∀ ps ts o, inFn (.obj []) [] ps ts o = .ok ("(null)", ps, ts)) ∧
    (∀ ps ts o, inFn (.arr []) [] ps ts o = .ok ("(null)", ps, ts)) ∧
    ("(null)" : String) ≠ "()" := by
  refine ⟨fun ps ts o => rfl, fun ps ts o => rfl, by decide⟩

/-- C7: composing a template holding a native undefined with the bare options
object `prepare()` passes fails at finalize time — but with a TypeError from
reading `options.transform.undefined` off the absent transform
configuration, not with the dedicated "Undefined values are not allowed"
error, which is unreachable on this path; no parameter is ever produced, so
undefined never serializes as null. -/
theorem claim_C7_undef_typeerror :
    prepareQ (.mk "SELECT " [(.pval (mkParameter .undef), "")]) =
      .error (.typeError "Cannot read properties of undefined (reading undefined)") ∧
    (∀ msg, JsErr.typeError "Cannot read properties of undefined (reading undefined)" ≠
      JsErr.error msg) :=
  ⟨rfl, fun _ h => JsErr.noConfusion h⟩

/-- C4: attaching two consumptions (for example awaiting the same query
twice) submits the prepared statement twice — `then()` unconditionally
re-runs compose-and-submit, there is no finalized flag. -/
theorem claim_C4_double_submission :
    consumeTwice (.mk "SELECT 1" []) =
      .ok [{ query := "SELECT 1", params := [], types := [] },
           { query := "SELECT 1", params := [], types := [] }] ∧
    (∀ q log p, prepareQ q = .ok p → thenQ q log = .ok (log ++ [p])) := by
  refine ⟨rfl, fun q log p h => ?_⟩
  simp [thenQ, handleQ, h, Except.bind]

/-- C4 witness: the second conjunct applied at a concrete query. -/
theorem claim_C4_double_submission_witness :
    prepareQ (.mk "SELECT 1" []) = .ok { query := "SELECT 1", params := [], types := [] } ∧
    thenQ (.mk "SELECT 1" []) [] =
      .ok [{ query := "SELECT 1", params := [], types := [] }] := by
  refine ⟨rfl, ?_⟩
  have h := claim_C4_double_submission.2 (.mk "SELECT 1" []) []
    { query := "SELECT 1", params := [], types := [] } rfl
  simpa using h

/-- C10: a native null in a value slot occupies a parameter slot transmitted
as the literal four-character text null with type tag 0: serialize renders
null as "null", inference tags it untyped, and a template with a null
argument composes to a placeholder with parameter text "null" and type 0. -/
theorem claim_C10_null_literal :
    serialize .null = .ok (some "null") ∧ inferType .null = oidUntyped ∧
    (∀ s0 s1, prepareQ (.mk s0 [(.pval (mkParameter .null), s1)]) =
      .ok { query := s0 ++ "$1" ++ s1, params := [some "null"], types := [0] }) :=
  ⟨rfl, rfl, fun _ _ => rfl⟩

/-- C8: a batch submission that is a Promise (an attempted interactive
transaction, e.g. a single not-yet-resolved query), a non-array, or an array
containing a non-query element is rejected with an error and never reaches
the network call. -/
theorem claim_C8_begin_rejects :
    beginFn .promiseLike =
      .error (.error "Invalid transaction, interactive transactions are not supported") ∧
    beginFn .notArray =
      .error (.error "Invalid transaction, expected an array of queries") ∧
    (∀ xs, BeginItem.notQuery ∈ xs → isErrB (beginFn (.items xs)) = true) := by
  refine ⟨rfl, rfl, fun xs => ?_⟩
  show BeginItem.notQuery ∈ xs → isErrB (beginPrepareAll xs) = true
  induction xs with
  | nil => intro hmem; cases hmem
  | cons hd tl ih =>
    intro hmem
    cases hd with
    | notQuery => rfl
    | query q =>
      have htl : BeginItem.notQuery ∈ tl := by
        cases hmem with
        | tail _ h => exact h
      have h2 := ih htl
      simp only [beginPrepareAll]
      cases hp : prepareQ q with
      | error e => rfl
      | ok p =>
        cases hb : beginPrepareAll tl with
        | error e => simp [Except.bind, isErrB]
        | ok ps => rw [hb] at h2; simp [isErrB] at h2

/-- C8 witness: a singleton array holding a non-query is rejected. -/
theorem claim_C8_begin_rejects_witness :
    BeginItem.notQuery ∈ [BeginItem.notQuery] ∧
    isErrB (beginFn (.items [BeginItem.notQuery])) = true :=
  ⟨List.Mem.head _, claim_C8_begin_rejects.2.2 [BeginItem.notQuery] (List.Mem.head _)⟩

/-- The previous-character field only blocks a boundary when it holds the
closing quote or brace. -/
theorem pBlocks_eq_false_iff (p : Option Char) :
    pBlocks p = false ↔ (p ≠ some '}' ∧ p ≠ some '"') := by
  cases p with
  | none => simp [pBlocks]
  | some c => simp [pBlocks]

/-- The array-parse loop cannot distinguish `apEquiv`-related states: it
produces the same element list, related final states, and final
current-character fields that are either equal or untouched copies of the
respective inputs. -/
theorem apEquiv_refl (s : APState) : apEquiv s s := ⟨rfl, rfl, rfl, rfl, rfl⟩

/-- The array-parse loop cannot distinguish `apEquiv`-related states: it
produces the same element list, related final states, and final
current-character fields that are either equal or untouched copies of the
respective inputs. -/
theorem arrayParserLoop_equiv {α : Type} (parse : String → α) (ty : Nat) (x : List Char) :
    ∀ fuel s1 s2 xs, apEquiv s1 s2 →
      (arrayParserLoop parse ty x fuel s1 xs).1 = (arrayParserLoop parse ty x fuel s2 xs).1 ∧
      apEquiv (arrayParserLoop parse ty x fuel s1 xs).2 (arrayParserLoop parse ty x fuel s2 xs).2 ∧
      ((arrayParserLoop parse ty x fuel s1 xs).2.char = (arrayParserLoop parse ty x fuel s2 xs).2.char ∨
        ((arrayParserLoop parse ty x fuel s1 xs).2.char = s1.char ∧
         (arrayParserLoop parse ty x fuel s2 xs).2.char = s2.char)) := by
  intro fuel
  induction fuel with
  | zero => exact fun s1 s2 xs h => ⟨rfl, h, Or.inr ⟨rfl, rfl⟩⟩
  | succ fuel ih =>
    rintro ⟨i1, p1, c1, str1, q1, l1⟩ ⟨i2, p2, c2, str2, q2, l2⟩ xs h
    obtain ⟨hi, hlast, hq, hstr, hp⟩ := h
    dsimp only at hi hlast hq hstr hp
    subst hi hlast hq hstr
    simp only [arrayParserLoop]
    cases hget : x.get? i1 with
    | none => exact ⟨rfl, ⟨rfl, rfl, rfl, rfl, hp⟩, Or.inr ⟨rfl, rfl⟩⟩
    | some c =>
      dsimp only
      by_cases hquoted : q1 = true
      · simp only [if_pos hquoted]
        by_cases hbs : c = '\\'
        · simp only [if_pos hbs]
          exact ⟨by trivial, apEquiv_refl _, Or.inl (by trivial)⟩
        · simp only [if_neg hbs]
          by_cases hdq : c = '"'
          · simp only [if_pos hdq]
            exact ⟨by trivial, apEquiv_refl _, Or.inl (by trivial)⟩
          · simp only [if_neg hdq]
            exact ⟨by trivial, apEquiv_refl _, Or.inl (by trivial)⟩
      · simp only [if_neg hquoted]
        by_cases hdq : c = '"'
        · simp only [if_pos hdq]
          exact ⟨by trivial, apEquiv_refl _, Or.inl (by trivial)⟩
        · simp only [if_neg hdq]
          by_cases hob : c = '{'
          · simp only [if_pos hob]
            have h1 := ih ⟨i1 + 1, p1, some c, str1, q1, i1 + 1⟩
              ⟨i1 + 1, p2, some c, str1, q1, i1 + 1⟩ [] ⟨rfl, rfl, rfl, rfl, hp⟩
            set r1 := arrayParserLoop parse ty x fuel ⟨i1 + 1, p1, some c, str1, q1, i1 + 1⟩ [] with hr1def
            set r2 := arrayParserLoop parse ty x fuel ⟨i1 + 1, p2, some c, str1, q1, i1 + 1⟩ [] with hr2def
            obtain ⟨hres, ⟨ti, tlast, tq, tstr, tp⟩, hch⟩ := h1
            have hcheq : r1.2.char = r2.2.char := by
              rcases hch with h | ⟨ha, hb⟩
              · exact h
              · rw [ha, hb]
            rw [hres]
            have h2 := ih { r1.2 with p := r1.2.char, i := r1.2.i + 1 }
              { r2.2 with p := r2.2.char, i := r2.2.i + 1 } (xs ++ [ATree.sub r2.1])
              ⟨by simp [ti], by simp [tlast], by simp [tq], by simp [tstr], by simp [hcheq]⟩
            refine ⟨h2.1, h2.2.1, Or.inl ?_⟩
            rcases h2.2.2 with h | ⟨ha, hb⟩
            · exact h
            · rw [ha, hb]; simp [hcheq]
          · simp only [if_neg hob]
            by_cases hcb : c = '}'
            · simp only [if_pos hcb]
              exact ⟨by trivial, ⟨rfl, rfl, rfl, rfl, hp⟩, Or.inl (by trivial)⟩
            · simp only [if_neg hcb]
              have hcond : (c = (if ty = 1020 then ';' else ',') ∧ p1 ≠ some '}' ∧ p1 ≠ some '"') ↔
                  (c = (if ty = 1020 then ';' else ',') ∧ p2 ≠ some '}' ∧ p2 ≠ some '"') := by
                constructor
                · rintro ⟨hc, ha, hb⟩
                  refine ⟨hc, ?_⟩
                  have hx := (pBlocks_eq_false_iff p1).mpr ⟨ha, hb⟩
                  rw [hp] at hx
                  exact (pBlocks_eq_false_iff p2).mp hx
                · rintro ⟨hc, ha, hb⟩
                  refine ⟨hc, ?_⟩
                  have hx := (pBlocks_eq_false_iff p2).mpr ⟨ha, hb⟩
                  rw [← hp] at hx
                  exact (pBlocks_eq_false_iff p1).mp hx
              by_cases hdel : c = (if ty = 1020 then ';' else ',') ∧ p1 ≠ some '}' ∧ p1 ≠ some '"'
              · simp only [if_pos hdel, if_pos (hcond.mp hdel)]
                exact ⟨by trivial, apEquiv_refl _, Or.inl (by trivial)⟩
              · simp only [if_neg hdel, if_neg (fun hx => hdel (hcond.mpr hx))]
                exact ⟨by trivial, apEquiv_refl _, Or.inl (by trivial)⟩

/-- C9 counterexample: the scratch state is not reset in full — after a
parse that leaves the quoted flag and accumulated string dirty, parsing
a well-formed literal on the same scratch state gives a different result
than a fresh parse. -/
theorem claim_C9_counterexample :
    (arrayParserFrom id 0 ((arrayParserFrom id 0 arrayParserState "\x7b\"a\"\"b\"\x7d").2)
        "\x7b1,2,3\x7d").1 ≠
      (arrayParserFrom id 0 arrayParserState "\x7b1,2,3\x7d").1 := by
  rw [show (arrayParserFrom id 0 ((arrayParserFrom id 0 arrayParserState "\x7b\"a\"\"b\"\x7d").2)
      "\x7b1,2,3\x7d").1 = [ATree.leaf "\x7b1,2,3\x7d"] from rfl]
  rw [show (arrayParserFrom id 0 arrayParserState "\x7b1,2,3\x7d").1 =
      [ATree.sub [ATree.leaf "1", ATree.leaf "2", ATree.leaf "3"]] from rfl]
  simp

/-- C9 (amended): a top-level parse resets only the scan position and the
element-start offset of the shared scratch state; it coincides with a parse
from the pristine state whenever the incoming state additionally has a clear
quoted flag, an empty accumulated string, and a previous character that is
not a closing quote or brace — the stale position, offset and current
character never influence the result. -/
theorem claim_C9_amended :
    ∀ (α : Type) (parse : String → α) (ty : Nat) (s : APState) (x : String),
      s.quoted = false → s.str = "" → pBlocks s.p = false →
      (arrayParserFrom parse ty s x).1 = (arrayParserFrom parse ty arrayParserState x).1 := by
  intro α parse ty s x hq hstr hp
  exact (arrayParserLoop_equiv parse ty x.toList (2 * x.toList.length + 2)
    { s with i := 0, last := 0 } { arrayParserState with i := 0, last := 0 } []
    ⟨rfl, rfl, hq, hstr, hp⟩).1

/-- C9 witness: a dirty-but-clean-flagged state parses like a fresh one. -/
theorem claim_C9_amended_witness :
    (APState.mk 7 (some 'x') (some 'y') "" false 3).quoted = false ∧
    (APState.mk 7 (some 'x') (some 'y') "" false 3).str = "" ∧
    pBlocks (APState.mk 7 (some 'x') (some 'y') "" false 3).p = false ∧
    (arrayParserFrom id 0 (APState.mk 7 (some 'x') (some 'y') "" false 3) "\x7b1,2\x7d").1 =
      (arrayParserFrom id 0 arrayParserState "\x7b1,2\x7d").1 :=
  ⟨rfl, rfl, by decide,
    claim_C9_amended String id 0 (APState.mk 7 (some 'x') (some 'y') "" false 3) "\x7b1,2\x7d"
      rfl rfl (by decide)⟩

/-- handleValue on a defined value appends the value and its pushed type and
returns the next placeholder. -/
theorem handleValue_ok (pv : PValue) (ps : List JSVal) (ts : List Nat) (o : Options)
    (h : isUndef (pvalueOf pv) = false) :
    handleValue pv ps ts o =
      .ok ("$" ++ natToDecString (ts.length + 1), ps ++ [pushedValue pv], ts ++ [pushedType pv]) := by
  simp [handleValue, h, Except.bind]

mutual

/-- The composer agrees with the sequential-numbering specification on whole
queries. -/
theorem stringify_spec_q (q : SqlQuery) (ps : List JSVal) (ts : List Nat) (o : Options)
    (h : ∀ pv ∈ flatParamsQ q, isUndef (pvalueOf pv) = false) :
    stringifyQuery q ps ts o =
      .ok ((specTextQ q ts.length).1, ps ++ (flatParamsQ q).map pushedValue,
        ts ++ (flatParamsQ q).map pushedType) ∧
    (specTextQ q ts.length).2 = ts.length + (flatParamsQ q).length :=
  match q with
  | .mk head rest => by
    have hr := stringify_spec_rest rest head ps ts o (by simpa [flatParamsQ] using h)
    simpa [stringifyQuery, specTextQ, flatParamsQ] using hr
termination_by sizeOf q

/-- The composer agrees with the sequential-numbering specification on
argument/segment lists. -/
theorem stringify_spec_rest (rest : List (Arg × String)) (acc : String) (ps : List JSVal)
    (ts : List Nat) (o : Options)
    (h : ∀ pv ∈ flatParamsRest rest, isUndef (pvalueOf pv) = false) :
    stringifyRest rest acc ps ts o =
      .ok ((specTextRest rest acc ts.length).1, ps ++ (flatParamsRest rest).map pushedValue,
        ts ++ (flatParamsRest rest).map pushedType) ∧
    (specTextRest rest acc ts.length).2 = ts.length + (flatParamsRest rest).length :=
  match rest with
  | [] => by simp [stringifyRest, specTextRest, flatParamsRest]
  | (a, s) :: rest => by
    have ha := stringify_spec_arg a acc ps ts o
      (fun pv hm => h pv (by simp [flatParamsRest, hm]))
    have hlen : (ts ++ (flatParamsArg a).map pushedType).length = (specTextArg a ts.length).2 := by
      simp [ha.2]
    have hr := stringify_spec_rest rest (acc ++ (specTextArg a ts.length).1 ++ s)
      (ps ++ (flatParamsArg a).map pushedValue) (ts ++ (flatParamsArg a).map pushedType) o
      (fun pv hm => h pv (by simp [flatParamsRest, hm]))
    rw [hlen] at hr
    constructor
    · simp only [stringifyRest, specTextRest, flatParamsRest, ha.1, Except.bind, hr.1,
        List.map_append, List.append_assoc]
    · simp only [specTextRest, flatParamsRest, List.length_append]
      rw [hr.2, ha.2]
      omega
termination_by sizeOf rest

/-- The composer agrees with the sequential-numbering specification on one
argument. -/
theorem stringify_spec_arg (a : Arg) (before : String) (ps : List JSVal) (ts : List Nat)
    (o : Options) (h : ∀ pv ∈ flatParamsArg a, isUndef (pvalueOf pv) = false) :
    stringifyValue before a ps ts o =
      .ok ((specTextArg a ts.length).1, ps ++ (flatParamsArg a).map pushedValue,
        ts ++ (flatParamsArg a).map pushedType) ∧
    (specTextArg a ts.length).2 = ts.length + (flatParamsArg a).length :=
  match a with
  | .pval pv => by
    have hpv : isUndef (pvalueOf pv) = false := h pv (by simp [flatParamsArg])
    simp [stringifyValue, specTextArg, flatParamsArg, handleValue_ok pv ps ts o hpv]
  | .ident t => by simp [stringifyValue, specTextArg, flatParamsArg]
  | .frag q => by
    have hq := stringify_spec_q q ps ts o (by simpa [flatParamsArg] using h)
    simpa [stringifyValue, specTextArg, flatParamsArg] using hq
  | .fragList qs => by
    have hf := stringify_spec_frags qs "" ps ts o (by simpa [flatParamsArg] using h)
    simpa [stringifyValue, specTextArg, flatParamsArg] using hf
termination_by sizeOf a

/-- The composer agrees with the sequential-numbering specification on
fragment lists. -/
theorem stringify_spec_frags (qs : List SqlQuery) (acc : String) (ps : List JSVal)
    (ts : List Nat) (o : Options)
    (h : ∀ pv ∈ flatParamsFrags qs, isUndef (pvalueOf pv) = false) :
    stringifyFrags qs acc ps ts o =
      .ok ((specTextFrags qs acc ts.length).1, ps ++ (flatParamsFrags qs).map pushedValue,
        ts ++ (flatParamsFrags qs).map pushedType) ∧
    (specTextFrags qs acc ts.length).2 = ts.length + (flatParamsFrags qs).length :=
  match qs with
  | [] => by simp [stringifyFrags, specTextFrags, flatParamsFrags]
  | q :: qs => by
    have hq := stringify_spec_q q ps ts o (fun pv hm => h pv (by simp [flatParamsFrags, hm]))
    have hlen : (ts ++ (flatParamsQ q).map pushedType).length = (specTextQ q ts.length).2 := by
      simp [hq.2]
    have hr := stringify_spec_frags qs (acc ++ " " ++ (specTextQ q ts.length).1)
      (ps ++ (flatParamsQ q).map pushedValue) (ts ++ (flatParamsQ q).map pushedType) o
      (fun pv hm => h pv (by simp [flatParamsFrags, hm]))
    rw [hlen] at hr
    constructor
    · simp only [stringifyFrags, specTextFrags, flatParamsFrags, hq.1, Except.bind, hr.1,
        List.map_append, List.append_assoc]
    · simp only [specTextFrags, flatParamsFrags, List.length_append]
      rw [hr.2, hq.2]
      omega
termination_by sizeOf qs

end

/-- Serializing a list of values none of which throws yields the list of
their serialized texts. -/
theorem serializeParams_ok (l : List JSVal) (h : ∀ v ∈ l, serOk v = true) :
    serializeParams l = .ok (l.map getSer) := by
  induction l with
  | nil => rfl
  | cons v vs ih =>
    have hv : serOk v = true := h v (List.Mem.head _)
    have hvs := ih (fun w hw => h w (List.Mem.tail _ hw))
    simp only [serializeParams, hvs, List.map]
    cases hs : serialize v with
    | ok s => simp [Except.bind, getSer, hs]
    | error e => simp [serOk, hs] at hv

/-- C3: for every builder-free template (nested fragments to any depth,
parameters and identifiers) whose value positions resolve to parameters that
are defined and serializable, composing produces exactly the
sequentially-numbered text of `specTextQ` — placeholders issued one per
parameter position, numbered consecutively from 1 in depth-first
left-to-right template order with no gaps and no reuse — and the parameter
and type lists are the serialized values and pushed types of the same
depth-first parameter sequence, with the final counter equal to the number
of parameters. -/
theorem claim_C3_composition :
    ∀ q : SqlQuery,
      (∀ pv ∈ flatParamsQ q, isUndef (pvalueOf pv) = false) →
      (∀ pv ∈ flatParamsQ q, serOk (pushedValue pv) = true) →
      prepareQ q = .ok
        { query := (specTextQ q 0).1,
          params := (flatParamsQ q).map (fun pv => getSer (pushedValue pv)),
          types := (flatParamsQ q).map pushedType } ∧
      (specTextQ q 0).2 = (flatParamsQ q).length := by
  intro q h1 h2
  have hs := stringify_spec_q q [] [] emptyOptions h1
  have hser := serializeParams_ok ((flatParamsQ q).map pushedValue)
    (fun v hv => by
      obtain ⟨pv, hpv, heq⟩ := List.mem_map.mp hv
      rw [← heq]
      exact h2 pv hpv)
  refine ⟨?_, ?_⟩
  · have h1s := hs.1
    simp only [List.length_nil, List.nil_append] at h1s
    simp only [prepareQ, h1s, Except.bind, hser]
    simp [List.map_map, Function.comp]
  · have h2s := hs.2
    simpa using h2s

/-- C3 witness: the two-level example composes to sequential placeholders. -/
theorem claim_C3_composition_witness :
    (∀ pv ∈ flatParamsQ exampleNestedQuery, isUndef (pvalueOf pv) = false) ∧
    (∀ pv ∈ flatParamsQ exampleNestedQuery, serOk (pushedValue pv) = true) ∧
    prepareQ exampleNestedQuery =
      .ok { query := "a $1 b c $2 d", params := [some "1", some "x"], types := [23, 25] } := by
  refine ⟨?_, ?_, ?_⟩
  · intro pv hm
    rcases hm with _ | ⟨_, hm⟩
    · rfl
    · rcases hm with _ | ⟨_, hm⟩
      · rfl
      · cases hm
  · intro pv hm
    rcases hm with _ | ⟨_, hm⟩
    · rfl
    · rcases hm with _ | ⟨_, hm⟩
      · rfl
      · cases hm
  · have h := (claim_C3_composition exampleNestedQuery
      (fun pv hm => by
        rcases hm with _ | ⟨_, hm⟩
        · rfl
        · rcases hm with _ | ⟨_, hm⟩
          · rfl
          · cases hm)
      (fun pv hm => by
        rcases hm with _ | ⟨_, hm⟩
        · rfl
        · rcases hm with _ | ⟨_, hm⟩
          · rfl
          · cases hm)).1
    rw [h]
    rfl

/-! ### Digit arithmetic lemmas -/

theorem isDigitChar_digit (n : Nat) (h : n < 10) : isDigitChar (Char.ofNat (48 + n)) = true := by
  interval_cases n <;> decide

theorem digitVal_digit (n : Nat) (h : n < 10) : digitVal (Char.ofNat (48 + n)) = n := by
  interval_cases n <;> decide

theorem digitsToNat_go (ds : List Char) :
    ∀ acc, ds.foldl (fun acc c => 10 * acc + digitVal c) acc =
      acc * 10 ^ ds.length + digitsToNat ds := by
  induction ds with
  | nil => intro acc; simp [digitsToNat]
  | cons c ds ih =>
    intro acc
    simp only [List.foldl_cons, digitsToNat, List.length_cons]
    rw [ih (10 * acc + digitVal c), ih (10 * 0 + digitVal c)]
    ring

theorem digitsToNat_append (a b : List Char) :
    digitsToNat (a ++ b) = digitsToNat a * 10 ^ b.length + digitsToNat b := by
  simp only [digitsToNat, List.foldl_append]
  rw [digitsToNat_go b]
  rfl

theorem digitsToNat_cons (c : Char) (ds : List Char) :
    digitsToNat (c :: ds) = digitVal c * 10 ^ ds.length + digitsToNat ds := by
  have h := digitsToNat_append [c] ds
  simpa [digitsToNat] using h

theorem natToDigitsAux_spec :
    ∀ fuel n, n < fuel →
      (natToDigitsAux fuel n ≠ [] ∧ (natToDigitsAux fuel n).all isDigitChar = true ∧
        digitsToNat (natToDigitsAux fuel n) = n) := by
  intro fuel
  induction fuel with
  | zero => intro n h; omega
  | succ fuel ih =>
    intro n h
    by_cases h10 : n < 10
    · simp only [natToDigitsAux, if_pos h10]
      refine ⟨by simp, by simp [isDigitChar_digit n h10], ?_⟩
      simpa [digitsToNat] using digitVal_digit n h10
    · simp only [natToDigitsAux, if_neg h10]
      have hdiv : n / 10 < fuel := by omega
      obtain ⟨h1, h2, h3⟩ := ih (n / 10) hdiv
      refine ⟨by simp, ?_, ?_⟩
      · simp only [List.all_append, h2, Bool.true_and, List.all_cons, List.all_nil,
          Bool.and_true]
        exact isDigitChar_digit (n % 10) (by omega)
      · rw [digitsToNat_append, h3]
        have : digitsToNat [Char.ofNat (48 + n % 10)] = n % 10 := by
          simpa [digitsToNat] using digitVal_digit (n % 10) (by omega)
        rw [this]
        simp only [List.length_singleton]
        omega

theorem natToDigits_ne_nil (n : Nat) : natToDigits n ≠ [] :=
  (natToDigitsAux_spec (n + 1) n (by omega)).1

theorem natToDigits_all (n : Nat) : (natToDigits n).all isDigitChar = true :=
  (natToDigitsAux_spec (n + 1) n (by omega)).2.1

theorem digitsToNat_natToDigits (n : Nat) : digitsToNat (natToDigits n) = n :=
  (natToDigitsAux_spec (n + 1) n (by omega)).2.2

theorem natToDigitsAux_head_ne_zero :
    ∀ fuel n, n < fuel → 1 ≤ n → ∀ c, (natToDigitsAux fuel n).head? = some c → c ≠ '0' := by
  intro fuel
  induction fuel with
  | zero => intro n h; omega
  | succ fuel ih =>
    intro n h h1 c hc
    by_cases h10 : n < 10
    · simp only [natToDigitsAux, if_pos h10, List.head?_cons, Option.some.injEq] at hc
      subst hc
      interval_cases n <;> decide
    · simp only [natToDigitsAux, if_neg h10] at hc
      have hne := (natToDigitsAux_spec fuel (n / 10) (by omega)).1
      rw [List.head?_append_of_ne_nil _ hne] at hc
      exact ih (n / 10) (by omega) (by omega) c hc

theorem natToDigits_head_ne_zero (n : Nat) (h1 : 1 ≤ n) :
    ∀ c, (natToDigits n).head? = some c → c ≠ '0' :=
  natToDigitsAux_head_ne_zero (n + 1) n (by omega) h1

theorem natToDigitsAux_length_le :
    ∀ fuel n w, n < fuel → n < 10 ^ w → 1 ≤ w → (natToDigitsAux fuel n).length ≤ w := by
  intro fuel
  induction fuel with
  | zero => intro n w h; omega
  | succ fuel ih =>
    intro n w h hw h1
    by_cases h10 : n < 10
    · simp [natToDigitsAux, if_pos h10]
      omega
    · simp only [natToDigitsAux, if_neg h10, List.length_append, List.length_singleton]
      have hw2 : 2 ≤ w := by
        by_contra hlt
        have hweq : w = 1 := by omega
        subst hweq
        simp at hw
        omega
      have hdivpow : n / 10 < 10 ^ (w - 1) := by
        have h2 : 10 ^ w = 10 * 10 ^ (w - 1) := by
          conv_lhs => rw [show w = 1 + (w - 1) by omega]
          rw [pow_add, pow_one]
        omega
      have := ih (n / 10) (w - 1) (by omega) hdivpow (by omega)
      omega

theorem natToDigits_length_le (n w : Nat) (hw : n < 10 ^ w) (h1 : 1 ≤ w) :
    (natToDigits n).length ≤ w :=
  natToDigitsAux_length_le (n + 1) n w (by omega) hw h1

/-! ### padDigits lemmas -/

theorem digitsToNat_replicate_zero (k : Nat) :
    digitsToNat (List.replicate k '0') = 0 := by
  induction k with
  | zero => rfl
  | succ k ih =>
    rw [List.replicate_succ, digitsToNat_cons, ih]
    simp [digitVal]

theorem padDigits_all (w n : Nat) : (padDigits w n).all isDigitChar = true := by
  simp only [padDigits, List.all_append, natToDigits_all, Bool.and_true]
  rw [List.all_eq_true]
  intro c hc
  rw [List.eq_of_mem_replicate hc]
  decide

theorem digitsToNat_padDigits (w n : Nat) : digitsToNat (padDigits w n) = n := by
  simp only [padDigits, digitsToNat_append, digitsToNat_replicate_zero,
    digitsToNat_natToDigits]
  simp

theorem padDigits_ne_nil (w n : Nat) : padDigits w n ≠ [] := by
  simp only [padDigits]
  intro h
  rcases List.append_eq_nil.mp h with ⟨_, h2⟩
  exact natToDigits_ne_nil n h2

theorem padDigits_length_ge (w n : Nat) : w ≤ (padDigits w n).length := by
  simp only [padDigits, List.length_append, List.length_replicate]
  omega

theorem padDigits_length_eq (w n : Nat) (h : n < 10 ^ w) (h1 : 1 ≤ w) :
    (padDigits w n).length = w := by
  have hle := natToDigits_length_le n w h h1
  simp only [padDigits, List.length_append, List.length_replicate]
  omega

/-! ### Character classification and span/trim lemmas -/

theorem digit_bounds (c : Char) (h : isDigitChar c = true) :
    48 ≤ c.toNat ∧ c.toNat ≤ 57 := by
  simpa [isDigitChar] using h

theorem digit_ne_of_char (c d : Char) (h : isDigitChar c = true)
    (hd : isDigitChar d = false) : c ≠ d := by
  intro he
  subst he
  rw [h] at hd
  cases hd

theorem digit_not_space (c : Char) (h : isDigitChar c = true) : isJsSpace c = false := by
  have hb := digit_bounds c h
  simp only [isJsSpace, decide_eq_false_iff_not]
  rintro (rfl | rfl | rfl | rfl | rfl | rfl) <;> simp_all

theorem digit_not_jsonws (c : Char) (h : isDigitChar c = true) : isJsonWs c = false := by
  have hb := digit_bounds c h
  simp only [isJsonWs, decide_eq_false_iff_not]
  rintro (rfl | rfl | rfl | rfl) <;> simp_all

theorem all_not_space_of_digits (ds : List Char) (h : ds.all isDigitChar = true) :
    ds.all (fun c => !isJsSpace c) = true := by
  rw [List.all_eq_true] at h ⊢
  intro c hc
  simp [digit_not_space c (h c hc)]

theorem dropWhile_eq_self_of_all {p : Char → Bool} (cs : List Char)
    (h : cs.all (fun c => !p c) = true) : cs.dropWhile p = cs := by
  cases cs with
  | nil => rfl
  | cons c cs =>
    simp only [List.all_cons, Bool.and_eq_true, Bool.not_eq_true'] at h
    simp [List.dropWhile_cons, h.1]

theorem jsTrim_eq_self (cs : List Char) (h : cs.all (fun c => !isJsSpace c) = true) :
    jsTrim cs = cs := by
  unfold jsTrim
  rw [dropWhile_eq_self_of_all cs h, dropWhile_eq_self_of_all cs.reverse (by simpa using h),
    List.reverse_reverse]

theorem takeWhile_append_all {p : Char → Bool} (a b : List Char) (ha : a.all p = true) :
    (a ++ b).takeWhile p = a ++ b.takeWhile p := by
  induction a with
  | nil => simp
  | cons c a ih =>
    simp only [List.all_cons, Bool.and_eq_true] at ha
    simp [List.takeWhile_cons, ha.1, ih ha.2]

theorem dropWhile_append_all {p : Char → Bool} (a b : List Char) (ha : a.all p = true) :
    (a ++ b).dropWhile p = b.dropWhile p := by
  induction a with
  | nil => simp
  | cons c a ih =>
    simp only [List.all_cons, Bool.and_eq_true] at ha
    simp [List.dropWhile_cons, ha.1, ih ha.2]

theorem takeWhile_eq_nil_of_head {p : Char → Bool} (b : List Char)
    (h : ∀ c, b.head? = some c → p c = false) : b.takeWhile p = [] := by
  cases b with
  | nil => rfl
  | cons c b => simp [List.takeWhile_cons, h c rfl]

theorem dropWhile_eq_self_of_head {p : Char → Bool} (b : List Char)
    (h : ∀ c, b.head? = some c → p c = false) : b.dropWhile p = b := by
  cases b with
  | nil => rfl
  | cons c b => simp [List.dropWhile_cons, h c rfl]

theorem span_append_digits (ds rest : List Char) (h1 : ds.all isDigitChar = true)
    (h2 : ∀ c, rest.head? = some c → isDigitChar c = false) :
    (ds ++ rest).span isDigitChar = (ds, rest) := by
  rw [List.span_eq_take_drop, takeWhile_append_all ds rest h1,
    dropWhile_append_all ds rest h1, takeWhile_eq_nil_of_head rest h2,
    dropWhile_eq_self_of_head rest h2, List.append_nil]

/-! ### Number printing and parsing inversion -/

theorem numToString_toList (m : Int) (e : Nat) :
    (numToString m e).toList =
      (if m < 0 then ['-'] else []) ++
      ((padDigits (e + 1) m.natAbs).take ((padDigits (e + 1) m.natAbs).length - e) ++
      (if e = 0 then [] else
        '.' :: (padDigits (e + 1) m.natAbs).drop ((padDigits (e + 1) m.natAbs).length - e))) := by
  unfold numToString
  by_cases hm : m < 0 <;> by_cases he : e = 0 <;>
    simp [hm, he, String.toList, String.data_append, String.mk]

theorem signed_natAbs (m : Int) :
    (if m < 0 then -(m.natAbs : Int) else (m.natAbs : Int)) = m := by
  by_cases hm : m < 0
  · rw [if_pos hm]; omega
  · rw [if_neg hm]; omega

theorem applyExp_zero (m : Int) (e : Nat) : applyExp m e 0 = (m, e) := by
  unfold applyExp
  rw [if_pos (le_refl (0 : Int))]
  simp only [Int.toNat_zero]
  by_cases he : e = 0
  · subst he; simp
  · rw [if_neg (by omega)]
    simp

theorem parseExpOpt_nil : parseExpOpt [] = some (0, []) := rfl

theorem parseExpOpt_no_exp (cs : List Char)
    (h : ∀ c, cs.head? = some c → c ≠ 'e' ∧ c ≠ 'E') : parseExpOpt cs = some (0, cs) := by
  cases cs with
  | nil => rfl
  | cons c rest =>
    have hc := h c rfl
    simp only [parseExpOpt]
    rw [if_neg (by simp [hc.1, hc.2])]

theorem parseDecimalCore_digits (ip : List Char) (hip_all : ip.all isDigitChar = true)
    (hip_ne : ip ≠ []) :
    parseDecimalCore ip = some ((digitsToNat ip, 0), []) := by
  unfold parseDecimalCore
  have hspan : ip.span isDigitChar = (ip, []) := by
    have := span_append_digits ip [] hip_all (by intro c hc; cases hc)
    simpa using this
  rw [hspan]
  simp [hip_ne]

theorem parseDecimalCore_frac (ip fp : List Char) (hip_all : ip.all isDigitChar = true)
    (hfp_all : fp.all isDigitChar = true) (hip_ne : ip ≠ []) :
    parseDecimalCore (ip ++ '.' :: fp) =
      some ((digitsToNat (ip ++ fp), fp.length), []) := by
  unfold parseDecimalCore
  have hspan : (ip ++ '.' :: fp).span isDigitChar = (ip, '.' :: fp) :=
    span_append_digits ip ('.' :: fp) hip_all
      (by intro c hc; simp at hc; subst hc; decide)
  rw [hspan]
  have hspan2 : fp.span isDigitChar = (fp, []) := by
    have := span_append_digits fp [] hfp_all (by intro c hc; cases hc)
    simpa using this
  dsimp only
  rw [if_pos (by simp : (('.' :: fp).head? = some '.')), List.tail_cons, hspan2]
  dsimp only
  rw [if_neg (by simp [hip_ne])]

theorem jsToNumber_numToString (m : Int) (e : Nat) :
    jsToNumber (numToString m e) = some (m, e) := by
  have hds_all : (padDigits (e + 1) m.natAbs).all isDigitChar = true := padDigits_all _ _
  have hlen : e + 1 ≤ (padDigits (e + 1) m.natAbs).length := padDigits_length_ge _ _
  set ds := padDigits (e + 1) m.natAbs with hds
  set ip := ds.take (ds.length - e) with hip
  set fp := ds.drop (ds.length - e) with hfp
  have hip_len : ip.length = ds.length - e := by rw [hip, List.length_take]; omega
  have hfp_len : fp.length = e := by rw [hfp, List.length_drop]; omega
  have hip_ne : ip ≠ [] := by
    intro h
    rw [h] at hip_len
    simp at hip_len
    omega
  have hip_all : ip.all isDigitChar = true := by
    rw [List.all_eq_true] at hds_all ⊢
    intro c hc
    exact hds_all c (List.mem_of_mem_take hc)
  have hfp_all : fp.all isDigitChar = true := by
    rw [List.all_eq_true] at hds_all ⊢
    intro c hc
    exact hds_all c (List.mem_of_mem_drop hc)
  have hipfp : ip ++ fp = ds := List.take_append_drop _ _
  have hval : digitsToNat ds = m.natAbs := digitsToNat_padDigits _ _
  obtain ⟨c0, ip2, hip_eq⟩ := List.exists_cons_of_ne_nil hip_ne
  have hc0 : isDigitChar c0 = true := by
    rw [List.all_eq_true] at hip_all
    exact hip_all c0 (by rw [hip_eq]; exact List.Mem.head _)
  have hc0b := digit_bounds c0 hc0
  -- the character list of the printed number
  have htl := numToString_toList m e
  rw [← hds] at htl
  rw [← hip, ← hfp] at htl
  -- the trimmed input is the full character list
  have hnospace : ((if m < 0 then ['-'] else []) ++
      (ip ++ (if e = 0 then [] else '.' :: fp))).all (fun c => !isJsSpace c) = true := by
    simp only [List.all_append, Bool.and_eq_true]
    refine ⟨?_, all_not_space_of_digits ip hip_all, ?_⟩
    · by_cases hm : m < 0 <;> simp [hm] <;> decide
    · by_cases he : e = 0
      · simp [he]
      · rw [if_neg he]
        simp only [List.all_cons, Bool.and_eq_true]
        exact ⟨by decide, all_not_space_of_digits fp hfp_all⟩
  unfold jsToNumber
  rw [htl, jsTrim_eq_self _ hnospace]
  by_cases hm : m < 0
  · rw [if_pos hm]
    simp only [List.singleton_append]
    rw [if_neg (by simp)]
    rw [if_pos (by simp), List.tail_cons]
    by_cases he : e = 0
    · rw [if_pos he, List.append_nil]
      have he0 : ip = ds := by rw [hip, he]; simp [List.take_length]
      rw [parseDecimalCore_digits ip hip_all hip_ne]
      dsimp only
      rw [parseExpOpt_nil]
      dsimp only
      rw [if_pos rfl, he0, hval, applyExp_zero]
      simp only [Option.some.injEq, Prod.mk.injEq, eq_self_iff_true, if_true]
      refine ⟨?_, ?_⟩ <;> first | trivial | omega
    · rw [if_neg he]
      rw [parseDecimalCore_frac ip fp hip_all hfp_all hip_ne]
      dsimp only
      rw [parseExpOpt_nil]
      dsimp only
      rw [if_pos rfl, hipfp, hval, hfp_len, applyExp_zero]
      simp only [Option.some.injEq, Prod.mk.injEq, eq_self_iff_true, if_true]
      refine ⟨?_, ?_⟩ <;> first | trivial | omega
  · rw [if_neg hm]
    simp only [List.nil_append]
    have hne2 : ip ++ (if e = 0 then [] else '.' :: fp) ≠ [] := by
      simp [hip_eq]
    rw [if_neg hne2]
    have hhead : (ip ++ (if e = 0 then [] else '.' :: fp)).head? = some c0 := by
      rw [hip_eq]
      simp
    rw [if_neg (by rw [hhead]; simp; intro h; subst h; simp [isDigitChar] at hc0)]
    rw [if_neg (by rw [hhead]; simp; intro h; subst h; simp [isDigitChar] at hc0)]
    by_cases he : e = 0
    · rw [if_pos he, List.append_nil]
      have he0 : ip = ds := by rw [hip, he]; simp [List.take_length]
      rw [parseDecimalCore_digits ip hip_all hip_ne]
      dsimp only
      rw [parseExpOpt_nil]
      dsimp only
      rw [if_pos rfl, he0, hval, applyExp_zero]
      simp only [Option.some.injEq, Prod.mk.injEq, Bool.false_eq_true, if_false]
      refine ⟨?_, ?_⟩ <;> first | trivial | omega
    · rw [if_neg he]
      rw [parseDecimalCore_frac ip fp hip_all hfp_all hip_ne]
      dsimp only
      rw [parseExpOpt_nil]
      dsimp only
      rw [if_pos rfl, hipfp, hval, hfp_len, applyExp_zero]
      simp only [Option.some.injEq, Prod.mk.injEq, Bool.false_eq_true, if_false]
      refine ⟨?_, ?_⟩ <;> first | trivial | omega

/-! ### BigInt and ISO date inversion -/

theorem parseBigInt_intToDecString (n : Int) :
    parseBigInt (intToDecString n) = .ok n := by
  have hall : (natToDigits n.natAbs).all isDigitChar = true := natToDigits_all _
  have hne : natToDigits n.natAbs ≠ [] := natToDigits_ne_nil _
  have htl : (intToDecString n).toList =
      (if n < 0 then ['-'] else []) ++ natToDigits n.natAbs := by
    unfold intToDecString natToDecString
    by_cases hn : n < 0 <;> simp [hn, String.toList, String.data_append, String.mk]
  have hnospace : ((if n < 0 then ['-'] else []) ++ natToDigits n.natAbs).all
      (fun c => !isJsSpace c) = true := by
    simp only [List.all_append, Bool.and_eq_true]
    refine ⟨?_, all_not_space_of_digits _ hall⟩
    by_cases hn : n < 0 <;> simp [hn] <;> decide
  obtain ⟨c0, tl, hdig⟩ := List.exists_cons_of_ne_nil hne
  have hc0 : isDigitChar c0 = true := by
    rw [List.all_eq_true] at hall
    exact hall c0 (by rw [hdig]; exact List.Mem.head _)
  have hspan : (natToDigits n.natAbs).span isDigitChar = (natToDigits n.natAbs, []) := by
    have := span_append_digits _ [] hall (by intro c hc; cases hc)
    simpa using this
  unfold parseBigInt
  rw [htl, jsTrim_eq_self _ hnospace]
  by_cases hn : n < 0
  · rw [if_pos hn]
    simp only [List.singleton_append]
    have hcne : ('-' :: natToDigits n.natAbs) ≠ [] := by simp
    have hhd : ('-' :: natToDigits n.natAbs).head? = some '-' := rfl
    rw [if_neg hcne]
    simp only [if_pos hhd, List.tail_cons, hspan]
    rw [if_neg (by simp [hne])]
    simp only [eq_self_iff_true, if_true, Except.ok.injEq, digitsToNat_natToDigits]
    omega
  · rw [if_neg hn]
    simp only [List.nil_append]
    have hh : (natToDigits n.natAbs).head? = some c0 := by rw [hdig]; rfl
    have hm2 : ¬((natToDigits n.natAbs).head? = some '-') := by
      rw [hh]
      simp only [Option.some.injEq]
      intro h
      subst h
      simp [isDigitChar] at hc0
    have hp2 : ¬((natToDigits n.natAbs).head? = some '+') := by
      rw [hh]
      simp only [Option.some.injEq]
      intro h
      subst h
      simp [isDigitChar] at hc0
    rw [if_neg hne]
    simp only [if_neg hm2, if_neg hp2, hspan]
    rw [if_neg (by simp [hne])]
    simp only [Bool.false_eq_true, if_false, Except.ok.injEq, digitsToNat_natToDigits]
    omega

theorem parseFixedNat_pad (w n : Nat) (rest : List Char) (hw : 1 ≤ w) (h : n < 10 ^ w) :
    parseFixedNat w (padDigits w n ++ rest) = some (n, rest) := by
  have hlen : (padDigits w n).length = w := padDigits_length_eq w n h hw
  have h1 : List.take w (padDigits w n ++ rest) = padDigits w n := by
    have := List.take_left (padDigits w n) rest
    rw [hlen] at this
    exact this
  have h2 : List.drop w (padDigits w n ++ rest) = rest := by
    have := List.drop_left (padDigits w n) rest
    rw [hlen] at this
    exact this
  unfold parseFixedNat
  simp only [h1, h2]
  rw [if_pos ⟨hlen, padDigits_all w n⟩]
  rw [digitsToNat_padDigits]

theorem expectChar_cons (c : Char) (rest : List Char) :
    expectChar c (c :: rest) = some rest := by
  simp [expectChar]

theorem dateToISO_toList (y mo d h mi s ms : Nat) :
    (dateToISO y mo d h mi s ms).toList =
      padDigits 4 y ++ '-' :: (padDigits 2 mo ++ '-' :: (padDigits 2 d ++
        'T' :: (padDigits 2 h ++ ':' :: (padDigits 2 mi ++ ':' :: (padDigits 2 s ++
        '.' :: (padDigits 3 ms ++ ['Z'])))))) := by
  unfold dateToISO
  simp [String.toList, String.data_append, String.mk]

theorem jsDateParse_dateToISO (y mo d h mi s ms : Nat)
    (hy : y ≤ 9999) (hmo1 : 1 ≤ mo) (hmo : mo ≤ 12) (hd1 : 1 ≤ d) (hd : d ≤ 31)
    (hh : h ≤ 23) (hmi : mi ≤ 59) (hs : s ≤ 59) (hms : ms ≤ 999) :
    jsDateParse (dateToISO y mo d h mi s ms) = .date y mo d h mi s ms := by
  have f4 : ∀ r, parseFixedNat 4 (padDigits 4 y ++ r) = some (y, r) :=
    fun r => parseFixedNat_pad 4 y r (by omega) (by omega)
  have fmo : ∀ r, parseFixedNat 2 (padDigits 2 mo ++ r) = some (mo, r) :=
    fun r => parseFixedNat_pad 2 mo r (by omega) (by omega)
  have fd : ∀ r, parseFixedNat 2 (padDigits 2 d ++ r) = some (d, r) :=
    fun r => parseFixedNat_pad 2 d r (by omega) (by omega)
  have fh : ∀ r, parseFixedNat 2 (padDigits 2 h ++ r) = some (h, r) :=
    fun r => parseFixedNat_pad 2 h r (by omega) (by omega)
  have fmi : ∀ r, parseFixedNat 2 (padDigits 2 mi ++ r) = some (mi, r) :=
    fun r => parseFixedNat_pad 2 mi r (by omega) (by omega)
  have fs : ∀ r, parseFixedNat 2 (padDigits 2 s ++ r) = some (s, r) :=
    fun r => parseFixedNat_pad 2 s r (by omega) (by omega)
  have fms : ∀ r, parseFixedNat 3 (padDigits 3 ms ++ r) = some (ms, r) :=
    fun r => parseFixedNat_pad 3 ms r (by omega) (by omega)
  unfold jsDateParse jsDateParseCore parseIsoDatePart parseIsoTimePart
  rw [dateToISO_toList]
  simp only [f4, fmo, fd, fh, fmi, fs, fms, expectChar_cons, Option.some_bind]
  rw [if_pos (by
    simp only [dateFieldsOk, Bool.and_eq_true, decide_eq_true_eq, eq_self_iff_true,
      true_and, and_true]
    omega)]

/-! ### JSON string escaping inversion -/

theorem hexVal_hexDigitChar (n : Nat) (h : n < 16) : hexVal? (hexDigitChar n) = some n := by
  interval_cases n <;> rfl

theorem parseJsonStringAux_inv (s : List Char) : ∀ fuel acc rest, s.length < fuel →
    parseJsonStringAux fuel acc ((s.map jsonEscapeChar).flatten ++ '"' :: rest) =
      some (String.mk (acc.reverse ++ s), rest) := by
  induction s with
  | nil =>
    intro fuel acc rest hf
    cases fuel with
    | zero => omega
    | succ f => simp [parseJsonStringAux]
  | cons c cs ih =>
    intro fuel acc rest hf
    cases fuel with
    | zero => omega
    | succ f =>
    have hlt : cs.length < f := by simpa using Nat.lt_of_succ_lt_succ hf
    simp only [List.map_cons, List.flatten_cons, List.append_assoc]
    by_cases hq : c = '"'
    · subst hq
      rw [show jsonEscapeChar '"' = ['\\', '"'] from rfl]
      simp only [List.cons_append, List.nil_append]
      have step : ∀ X, parseJsonStringAux (f+1) acc ('\\' :: '"' :: X) =
          parseJsonStringAux f ('"' :: acc) X := fun _ => rfl
      rw [step, ih f ('"' :: acc) rest hlt]
      simp
    · by_cases hbs : c = '\\'
      · subst hbs
        rw [show jsonEscapeChar '\\' = ['\\', '\\'] from rfl]
        simp only [List.cons_append, List.nil_append]
        have step : ∀ X, parseJsonStringAux (f+1) acc ('\\' :: '\\' :: X) =
            parseJsonStringAux f ('\\' :: acc) X := fun _ => rfl
        rw [step, ih f ('\\' :: acc) rest hlt]
        simp
      · by_cases hb8 : c = '\x08'
        · subst hb8
          rw [show jsonEscapeChar '\x08' = ['\\', 'b'] from rfl]
          simp only [List.cons_append, List.nil_append]
          have step : ∀ X, parseJsonStringAux (f+1) acc ('\\' :: 'b' :: X) =
              parseJsonStringAux f ('\x08' :: acc) X := fun _ => rfl
          rw [step, ih f ('\x08' :: acc) rest hlt]
          simp
        · by_cases ht9 : c = '\x09'
          · subst ht9
            rw [show jsonEscapeChar '\x09' = ['\\', 't'] from rfl]
            simp only [List.cons_append, List.nil_append]
            have step : ∀ X, parseJsonStringAux (f+1) acc ('\\' :: 't' :: X) =
                parseJsonStringAux f ('\x09' :: acc) X := fun _ => rfl
            rw [step, ih f ('\x09' :: acc) rest hlt]
            simp
          · by_cases hna : c = '\x0a'
            · subst hna
              rw [show jsonEscapeChar '\x0a' = ['\\', 'n'] from rfl]
              simp only [List.cons_append, List.nil_append]
              have step : ∀ X, parseJsonStringAux (f+1) acc ('\\' :: 'n' :: X) =
                  parseJsonStringAux f ('\x0a' :: acc) X := fun _ => rfl
              rw [step, ih f ('\x0a' :: acc) rest hlt]
              simp
            · by_cases hfc : c = '\x0c'
              · subst hfc
                rw [show jsonEscapeChar '\x0c' = ['\\', 'f'] from rfl]
                simp only [List.cons_append, List.nil_append]
                have step : ∀ X, parseJsonStringAux (f+1) acc ('\\' :: 'f' :: X) =
                    parseJsonStringAux f ('\x0c' :: acc) X := fun _ => rfl
                rw [step, ih f ('\x0c' :: acc) rest hlt]
                simp
              · by_cases hrd : c = '\x0d'
                · subst hrd
                  rw [show jsonEscapeChar '\x0d' = ['\\', 'r'] from rfl]
                  simp only [List.cons_append, List.nil_append]
                  have step : ∀ X, parseJsonStringAux (f+1) acc ('\\' :: 'r' :: X) =
                      parseJsonStringAux f ('\x0d' :: acc) X := fun _ => rfl
                  rw [step, ih f ('\x0d' :: acc) rest hlt]
                  simp
                · by_cases h32 : c.toNat < 32
                  · simp only [jsonEscapeChar, if_neg hq, if_neg hbs, if_neg hb8,
                      if_neg ht9, if_neg hna, if_neg hfc, if_neg hrd, if_pos h32,
                      List.cons_append, List.nil_append]
                    have step : ∀ (a b : Char) X, parseJsonStringAux (f+1) acc
                        ('\\' :: 'u' :: '0' :: '0' :: a :: b :: X) =
                        (hexVal? a).bind fun x =>
                        (hexVal? b).bind fun y =>
                        parseJsonStringAux f
                          (Char.ofNat (4096 * 0 + 256 * 0 + 16 * x + y) :: acc) X :=
                      fun _ _ _ => rfl
                    rw [step, hexVal_hexDigitChar (c.toNat / 16) (by omega),
                      hexVal_hexDigitChar (c.toNat % 16) (by omega)]
                    simp only [Option.some_bind]
                    rw [show (4096 * 0 + 256 * 0 + 16 * (c.toNat / 16) + c.toNat % 16) =
                      c.toNat by omega, Char.ofNat_toNat]
                    rw [ih f (c :: acc) rest hlt]
                    simp
                  · simp only [jsonEscapeChar, if_neg hq, if_neg hbs, if_neg hb8,
                      if_neg ht9, if_neg hna, if_neg hfc, if_neg hrd, if_neg h32,
                      List.cons_append, List.nil_append]
                    simp only [parseJsonStringAux]
                    rw [if_neg hq, if_neg hbs, if_neg h32]
                    rw [ih f (c :: acc) rest hlt]
                    simp

theorem jsonEscapeChar_length_pos (c : Char) : 1 ≤ (jsonEscapeChar c).length := by
  unfold jsonEscapeChar
  repeat' split
  all_goals simp

theorem escFlatten_length_ge (s : List Char) :
    s.length ≤ ((s.map jsonEscapeChar).flatten).length := by
  induction s with
  | nil => simp
  | cons c cs ih =>
    simp only [List.map_cons, List.flatten_cons, List.length_append, List.length_cons]
    have := jsonEscapeChar_length_pos c
    omega

theorem parseJsonString_inv (s : String) (rest : List Char) :
    parseJsonString ((s.toList.map jsonEscapeChar).flatten ++ '"' :: rest) =
      some (s, rest) := by
  unfold parseJsonString
  rw [parseJsonStringAux_inv s.toList _ [] rest
    (by
      have := escFlatten_length_ge s.toList
      simp only [List.length_append, List.length_cons]
      omega)]
  simp only [List.reverse_nil, List.nil_append]
  rfl

theorem jsonQuote_toList (s : String) :
    (jsonQuote s).toList = '"' :: ((s.toList.map jsonEscapeChar).flatten ++ ['"']) := by
  unfold jsonQuote
  simp [String.toList, String.data_append, String.mk]

/-! ### String.intercalate decomposition -/

theorem intercalate_go_toList (s : String) : ∀ (ps : List String) (acc : String),
    (String.intercalate.go acc s ps).toList =
      acc.toList ++ (ps.map fun q => s.toList ++ q.toList).flatten := by
  intro ps
  induction ps with
  | nil => intro acc; simp [String.intercalate.go]
  | cons a as ih =>
    intro acc
    rw [show String.intercalate.go acc s (a :: as) =
      String.intercalate.go (acc ++ s ++ a) s as from rfl, ih]
    simp [String.toList, String.data_append, List.append_assoc]

theorem intercalate_comma_toList (p : String) (ps : List String) :
    (String.intercalate "," (p :: ps)).toList =
      p.toList ++ (ps.map fun q => ',' :: q.toList).flatten := by
  rw [show String.intercalate "," (p :: ps) = String.intercalate.go p "," ps from rfl,
    intercalate_go_toList]
  rfl

/-! ### JSON number inversion -/

theorem parseJsonIntPart_pad (ip rest : List Char) (hall : ip.all isDigitChar = true)
    (hne : ip ≠ []) (hzero : ∀ tl, ip = '0' :: tl → tl = [])
    (hb : ∀ c, rest.head? = some c → isDigitChar c = false) :
    parseJsonIntPart (ip ++ rest) = some (ip, rest) := by
  obtain ⟨c0, tl, hip⟩ := List.exists_cons_of_ne_nil hne
  subst hip
  have hc0 : isDigitChar c0 = true := by
    rw [List.all_eq_true] at hall
    exact hall c0 (List.Mem.head _)
  have htl_all : tl.all isDigitChar = true := by
    rw [List.all_eq_true] at hall ⊢
    intro x hx
    exact hall x (List.Mem.tail _ hx)
  by_cases h0 : c0 = '0'
  · subst h0
    have h1 := hzero tl rfl
    subst h1
    simp only [List.cons_append, List.nil_append, parseJsonIntPart]
    simp
  · simp only [List.cons_append, parseJsonIntPart, if_neg h0, hc0, if_true]
    rw [span_append_digits tl rest htl_all hb]

theorem parseJsonNumber_inv (m : Int) (e : Nat) (rest : List Char)
    (hb : ∀ c, rest.head? = some c →
      isDigitChar c = false ∧ c ≠ '.' ∧ c ≠ 'e' ∧ c ≠ 'E') :
    parseJsonNumber ((numToString m e).toList ++ rest) = some ((m, e), rest) := by
  have hds_all : (padDigits (e + 1) m.natAbs).all isDigitChar = true := padDigits_all _ _
  have hlen : e + 1 ≤ (padDigits (e + 1) m.natAbs).length := padDigits_length_ge _ _
  set ds := padDigits (e + 1) m.natAbs with hds
  set ip := ds.take (ds.length - e) with hip
  set fp := ds.drop (ds.length - e) with hfp
  have hip_len : ip.length = ds.length - e := by rw [hip, List.length_take]; omega
  have hfp_len : fp.length = e := by rw [hfp, List.length_drop]; omega
  have hip_ne : ip ≠ [] := by
    intro h
    rw [h] at hip_len
    simp at hip_len
    omega
  have hip_all : ip.all isDigitChar = true := by
    rw [List.all_eq_true] at hds_all ⊢
    intro x hx
    exact hds_all x (List.mem_of_mem_take hx)
  have hfp_all : fp.all isDigitChar = true := by
    rw [List.all_eq_true] at hds_all ⊢
    intro x hx
    exact hds_all x (List.mem_of_mem_drop hx)
  have hipfp : ip ++ fp = ds := List.take_append_drop _ _
  have hval : digitsToNat ds = m.natAbs := digitsToNat_padDigits _ _
  obtain ⟨c0, ip2, hip_eq⟩ := List.exists_cons_of_ne_nil hip_ne
  have hc0 : isDigitChar c0 = true := by
    rw [List.all_eq_true] at hip_all
    exact hip_all c0 (by rw [hip_eq]; exact List.Mem.head _)
  have hzero : ∀ tl, ip = '0' :: tl → tl = [] := by
    intro tl htl
    by_cases hcase : (natToDigits m.natAbs).length ≤ e + 1
    · have hL : ds.length = e + 1 := by
        rw [hds]
        simp only [padDigits, List.length_append, List.length_replicate]
        omega
      have hone : ip.length = 1 := by rw [hip_len, hL]; omega
      rw [htl] at hone
      simp only [List.length_cons, Nat.add_left_eq_self] at hone
      exact List.length_eq_zero.mp hone
    · have hrep : ds = natToDigits m.natAbs := by
        rw [hds]
        simp only [padDigits]
        rw [show e + 1 - (natToDigits m.natAbs).length = 0 by omega]
        simp
      have hpos : 1 ≤ m.natAbs := by
        by_contra hc
        have h0 : m.natAbs = 0 := by omega
        rw [h0] at hcase
        exact hcase (by rw [show natToDigits 0 = ['0'] from rfl]; simp)
      have hh : (natToDigits m.natAbs).head? = some '0' := by
        have h1 : ip.head? = some '0' := by rw [htl]; rfl
        rw [hip, List.head?_take, if_neg (by omega)] at h1
        rw [← hrep]
        exact h1
      exact absurd rfl (natToDigits_head_ne_zero m.natAbs hpos '0' hh)
  have hb_digit : ∀ c, rest.head? = some c → isDigitChar c = false :=
    fun c hc => (hb c hc).1
  have hb_exp : ∀ c, rest.head? = some c → c ≠ 'e' ∧ c ≠ 'E' :=
    fun c hc => ⟨(hb c hc).2.2.1, (hb c hc).2.2.2⟩
  have hb_dot : ¬(rest.head? = some '.') := fun hc => (hb '.' hc).2.1 rfl
  have htl := numToString_toList m e
  rw [← hds, ← hip, ← hfp] at htl
  unfold parseJsonNumber
  rw [htl]
  by_cases hm : m < 0
  · rw [if_pos hm]
    simp only [List.singleton_append, List.cons_append, List.nil_append,
      List.append_assoc]
    rw [if_pos (by simp), List.tail_cons]
    by_cases he : e = 0
    · rw [if_pos he]
      simp only [List.nil_append]
      have he0 : ip = ds := by rw [hip, he]; simp [List.take_length]
      rw [parseJsonIntPart_pad ip rest hip_all hip_ne hzero hb_digit]
      simp only [Option.some_bind]
      rw [if_neg hb_dot]
      simp only [Option.some_bind]
      rw [parseExpOpt_no_exp rest hb_exp]
      simp only [Option.some_bind, List.append_nil, List.length_nil, he0, hval,
        applyExp_zero]
      simp only [Option.some.injEq, Prod.mk.injEq, eq_self_iff_true, if_true]
      refine ⟨⟨?_, ?_⟩, ?_⟩ <;> first | trivial | omega
    · rw [if_neg he]
      simp only [List.cons_append, List.append_assoc]
      rw [parseJsonIntPart_pad ip ('.' :: (fp ++ rest)) hip_all hip_ne hzero
        (by intro c hc; simp at hc; subst hc; decide)]
      simp only [Option.some_bind]
      rw [if_pos (by simp), List.tail_cons,
        span_append_digits fp rest hfp_all hb_digit]
      dsimp only
      rw [if_neg (by intro h; rw [h] at hfp_len; simp at hfp_len; omega)]
      simp only [Option.some_bind]
      rw [parseExpOpt_no_exp rest hb_exp]
      simp only [Option.some_bind, hipfp, hval, hfp_len, applyExp_zero]
      simp only [Option.some.injEq, Prod.mk.injEq, eq_self_iff_true, if_true]
      refine ⟨⟨?_, ?_⟩, ?_⟩ <;> first | trivial | omega
  · rw [if_neg hm]
    simp only [List.nil_append, List.append_assoc]
    have hhead : (ip ++ ((if e = 0 then [] else '.' :: fp) ++ rest)).head? = some c0 := by
      rw [hip_eq]
      simp
    rw [if_neg (by rw [hhead]; simp; intro h; subst h; simp [isDigitChar] at hc0)]
    by_cases he : e = 0
    · rw [if_pos he]
      simp only [List.nil_append]
      have he0 : ip = ds := by rw [hip, he]; simp [List.take_length]
      rw [parseJsonIntPart_pad ip rest hip_all hip_ne hzero hb_digit]
      simp only [Option.some_bind]
      rw [if_neg hb_dot]
      simp only [Option.some_bind]
      rw [parseExpOpt_no_exp rest hb_exp]
      simp only [Option.some_bind, List.append_nil, List.length_nil, he0, hval,
        applyExp_zero]
      simp only [Option.some.injEq, Prod.mk.injEq, Bool.false_eq_true, if_false]
      refine ⟨⟨?_, ?_⟩, ?_⟩ <;> first | trivial | omega
    · rw [if_neg he]
      simp only [List.cons_append, List.append_assoc]
      rw [parseJsonIntPart_pad ip ('.' :: (fp ++ rest)) hip_all hip_ne hzero
        (by intro c hc; simp at hc; subst hc; decide)]
      simp only [Option.some_bind]
      rw [if_pos (by simp), List.tail_cons,
        span_append_digits fp rest hfp_all hb_digit]
      dsimp only
      rw [if_neg (by intro h; rw [h] at hfp_len; simp at hfp_len; omega)]
      simp only [Option.some_bind]
      rw [parseExpOpt_no_exp rest hb_exp]
      simp only [Option.some_bind, hipfp, hval, hfp_len, applyExp_zero]
      simp only [Option.some.injEq, Prod.mk.injEq, Bool.false_eq_true, if_false]
      refine ⟨⟨?_, ?_⟩, ?_⟩ <;> first | trivial | omega

/-! ### Printer totality and head classification on represented values -/

mutual

/-- JSON.stringify succeeds with a string on every represented value. -/
theorem jsonRep_print (v : JSVal) (h : jsonRep v = true) :
    ∃ s, jsonStringify v = .ok (some s) :=
  match v with
  | .null => ⟨"null", rfl⟩
  | .bool true => ⟨"true", rfl⟩
  | .bool false => ⟨"false", rfl⟩
  | .str s => ⟨jsonQuote s, rfl⟩
  | .num m e => ⟨numToString m e, rfl⟩
  | .arr xs => by
    obtain ⟨ps, hps⟩ := jsonRepList_print xs (by simpa [jsonRep] using h)
    exact ⟨"[" ++ String.intercalate "," ps ++ "]", by
      simp only [jsonStringify, hps]
      rfl⟩
  | .obj kvs => by
    obtain ⟨ps, hps⟩ := jsonRepPairs_print kvs
      (by simp only [jsonRep, Bool.and_eq_true] at h; exact h.2)
    exact ⟨"\x7b" ++ String.intercalate "," ps ++ "\x7d", by
      simp only [jsonStringify, hps]
      rfl⟩
termination_by sizeOf v

/-- JSON.stringify of the elements of a represented list succeeds. -/
theorem jsonRepList_print (vs : List JSVal) (h : jsonRepList vs = true) :
    ∃ ps, jsonElems vs = .ok ps :=
  match vs with
  | [] => ⟨[], rfl⟩
  | v :: rest => by
    simp only [jsonRepList, Bool.and_eq_true] at h
    obtain ⟨s, hs⟩ := jsonRep_print v h.1
    obtain ⟨ps, hps⟩ := jsonRepList_print rest h.2
    exact ⟨s :: ps, by
      simp only [jsonElems, hs, hps]
      rfl⟩
termination_by sizeOf vs

/-- JSON.stringify of the members of a represented pair list succeeds. -/
theorem jsonRepPairs_print (kvs : List (String × JSVal)) (h : jsonRepPairs kvs = true) :
    ∃ ps, jsonMembers kvs = .ok ps :=
  match kvs with
  | [] => ⟨[], rfl⟩
  | (k, v) :: rest => by
    simp only [jsonRepPairs, Bool.and_eq_true] at h
    obtain ⟨s, hs⟩ := jsonRep_print v h.1
    obtain ⟨ps, hps⟩ := jsonRepPairs_print rest h.2
    exact ⟨(jsonQuote k ++ ":" ++ s) :: ps, by
      simp only [jsonMembers, hs, hps]
      rfl⟩
termination_by sizeOf kvs

end

theorem numToString_head (m : Int) (e : Nat) :
    ∃ c tl, (numToString m e).toList = c :: tl ∧ (c = '-' ∨ isDigitChar c = true) := by
  have htl := numToString_toList m e
  by_cases hm : m < 0
  · rw [if_pos hm] at htl
    refine ⟨'-', List.take ((padDigits (e + 1) m.natAbs).length - e)
        (padDigits (e + 1) m.natAbs) ++
      (if e = 0 then [] else '.' :: List.drop ((padDigits (e + 1) m.natAbs).length - e)
        (padDigits (e + 1) m.natAbs)), by rw [htl]; rfl, Or.inl rfl⟩
  · rw [if_neg hm] at htl
    have hds_all : (padDigits (e + 1) m.natAbs).all isDigitChar = true := padDigits_all _ _
    have hlen : e + 1 ≤ (padDigits (e + 1) m.natAbs).length := padDigits_length_ge _ _
    obtain ⟨d0, ds', hds_eq⟩ :=
      List.exists_cons_of_ne_nil (padDigits_ne_nil (e + 1) m.natAbs)
    obtain ⟨k, hk⟩ : ∃ k, (padDigits (e + 1) m.natAbs).length - e = k + 1 :=
      ⟨(padDigits (e + 1) m.natAbs).length - e - 1, by omega⟩
    have hd0 : isDigitChar d0 = true := by
      rw [List.all_eq_true] at hds_all
      exact hds_all d0 (by rw [hds_eq]; exact List.Mem.head _)
    refine ⟨d0, List.take k ds' ++ (if e = 0 then [] else
      '.' :: List.drop ((padDigits (e + 1) m.natAbs).length - e)
        (padDigits (e + 1) m.natAbs)), ?_, Or.inr hd0⟩
    rw [htl, hk]
    rw [show List.take (k + 1) (padDigits (e + 1) m.natAbs) = d0 :: List.take k ds' by
      rw [hds_eq, List.take_succ_cons]]
    simp

/-- The first character of a printed represented value: never whitespace and
never one of the closing/separator characters. -/
theorem jsonRep_print_head (v : JSVal) (s : String) (h : jsonRep v = true)
    (hs : jsonStringify v = .ok (some s)) :
    ∃ c tl, s.toList = c :: tl ∧ isJsonWs c = false ∧ c ≠ ']' ∧ c ≠ ',' ∧ c ≠ '}' := by
  cases v with
  | null =>
    have h1 : s = "null" := by
      simpa [jsonStringify] using hs.symm
    exact ⟨'n', _, by rw [h1]; rfl, by decide, by decide, by decide, by decide⟩
  | bool b =>
    cases b with
    | true =>
      have h1 : s = "true" := by simpa [jsonStringify] using hs.symm
      exact ⟨'t', _, by rw [h1]; rfl, by decide, by decide, by decide, by decide⟩
    | false =>
      have h1 : s = "false" := by simpa [jsonStringify] using hs.symm
      exact ⟨'f', _, by rw [h1]; rfl, by decide, by decide, by decide, by decide⟩
  | str t =>
    have h1 : s = jsonQuote t := by simpa [jsonStringify] using hs.symm
    exact ⟨'"', _, by rw [h1, jsonQuote_toList], by decide, by decide, by decide, by decide⟩
  | num m e =>
    have h1 : s = numToString m e := by simpa [jsonStringify] using hs.symm
    obtain ⟨c, tl, hct, hc⟩ := numToString_head m e
    refine ⟨c, tl, by rw [h1, hct], ?_, ?_, ?_, ?_⟩
    · rcases hc with rfl | hd
      · decide
      · exact digit_not_jsonws c hd
    · rcases hc with rfl | hd
      · decide
      · exact digit_ne_of_char c ']' hd (by decide)
    · rcases hc with rfl | hd
      · decide
      · exact digit_ne_of_char c ',' hd (by decide)
    · rcases hc with rfl | hd
      · decide
      · exact digit_ne_of_char c '}' hd (by decide)
  | arr xs =>
    obtain ⟨ps, hps⟩ := jsonRepList_print xs (by simpa [jsonRep] using h)
    have h2 : jsonStringify (JSVal.arr xs) =
        .ok (some ("[" ++ String.intercalate "," ps ++ "]")) := by
      simp only [jsonStringify, hps]
      rfl
    rw [h2] at hs
    have h1 : s = "[" ++ String.intercalate "," ps ++ "]" := by
      simpa using hs.symm
    refine ⟨'[', (String.intercalate "," ps ++ "]").toList, ?_, by decide, by decide,
      by decide, by decide⟩
    rw [h1]
    simp [String.toList, String.data_append, List.append_assoc]
  | obj kvs =>
    obtain ⟨ps, hps⟩ := jsonRepPairs_print kvs
      (by simp only [jsonRep, Bool.and_eq_true] at h; exact h.2)
    have h2 : jsonStringify (JSVal.obj kvs) =
        .ok (some ("\x7b" ++ String.intercalate "," ps ++ "\x7d")) := by
      simp only [jsonStringify, hps]
      rfl
    rw [h2] at hs
    have h1 : s = "\x7b" ++ String.intercalate "," ps ++ "\x7d" := by
      simpa using hs.symm
    refine ⟨'\x7b', (String.intercalate "," ps ++ "\x7d").toList, ?_, by decide,
      by decide, by decide, by decide⟩
    rw [h1]
    simp [String.toList, String.data_append, List.append_assoc]
  | undef => simp [jsonRep] at h
  | nan => simp [jsonRep] at h
  | bigint n => simp [jsonRep] at h
  | date y mo d hh mi ss ms => simp [jsonRep] at h
  | invalidDate => simp [jsonRep] at h
  | bytes bs => simp [jsonRep] at h

theorem skipWs_cons_of (c : Char) (l : List Char) (h : isJsonWs c = false) :
    skipWs (c :: l) = c :: l := by
  simp [skipWs, List.dropWhile_cons, h]

theorem boundary_of_head (rest : List Char) (d : Char) (h : rest.head? = some d)
    (hd : isDigitChar d = false ∧ d ≠ '.' ∧ d ≠ 'e' ∧ d ≠ 'E') :
    ∀ c, rest.head? = some c →
      isDigitChar c = false ∧ c ≠ '.' ∧ c ≠ 'e' ∧ c ≠ 'E' := by
  intro c hc
  rw [h] at hc
  obtain rfl : d = c := by simpa using hc
  exact hd

theorem elems_flatten_boundary (ps : List String) (d : Char) (rest : List Char)
    (hd : isDigitChar d = false ∧ d ≠ '.' ∧ d ≠ 'e' ∧ d ≠ 'E') :
    ∀ c, ((ps.map fun p => ',' :: p.toList).flatten ++ d :: rest).head? = some c →
      isDigitChar c = false ∧ c ≠ '.' ∧ c ≠ 'e' ∧ c ≠ 'E' := by
  intro c hc
  cases ps with
  | nil =>
    simp only [List.map_nil, List.flatten_nil, List.nil_append, List.head?_cons,
      Option.some.injEq] at hc
    subst hc
    exact hd
  | cons p ps =>
    simp only [List.map_cons, List.flatten_cons, List.cons_append, List.head?_cons,
      Option.some.injEq] at hc
    subst hc
    refine ⟨by decide, by decide, by decide, by decide⟩

/-! ### JSON parse/print inversion -/

theorem string_toList_append (a b : String) : (a ++ b).toList = a.toList ++ b.toList := rfl

theorem jsonParseVal_step_num (f : Nat) (c : Char) (l : List Char)
    (hws : isJsonWs c = false) (hn : c ≠ 'n') (ht : c ≠ 't') (hf : c ≠ 'f')
    (hq : c ≠ '"') (hlb : c ≠ '[') (hob : c ≠ '\x7b') :
    jsonParseVal (f + 1) (c :: l) =
      (parseJsonNumber (c :: l)).bind fun pr => some (.num pr.1.1 pr.1.2, pr.2) := by
  simp only [jsonParseVal]
  rw [skipWs_cons_of c l hws]
  dsimp only
  rw [if_neg hn, if_neg ht, if_neg hf, if_neg hq, if_neg hlb, if_neg hob]

/-- Printed JSON text parses back to the value it was printed from: the four
mutually recursive parsers, by induction on the fuel bound. -/
theorem jsonParse_inv_all : ∀ fuel : Nat,
    (∀ v s rest, jsonRep v = true → jsonStringify v = .ok (some s) →
      (∀ c, rest.head? = some c →
        isDigitChar c = false ∧ c ≠ '.' ∧ c ≠ 'e' ∧ c ≠ 'E') →
      (s.toList ++ rest).length < fuel →
      jsonParseVal fuel (s.toList ++ rest) = some (v, rest)) ∧
    (∀ vs ps rest, jsonRepList vs = true → jsonElems vs = .ok ps →
      rest.head? = some ']' →
      ((ps.map fun p => ',' :: p.toList).flatten ++ rest).length < fuel →
      jsonParseElems fuel ((ps.map fun p => ',' :: p.toList).flatten ++ rest) =
        some (vs, rest)) ∧
    (∀ k v s rest, jsonRep v = true → jsonStringify v = .ok (some s) →
      (rest.head? = some ',' ∨ rest.head? = some '\x7d') →
      ((jsonQuote k).toList ++ ':' :: (s.toList ++ rest)).length < fuel →
      jsonParsePair fuel ((jsonQuote k).toList ++ ':' :: (s.toList ++ rest)) =
        some ((k, v), rest)) ∧
    (∀ kvs ps rest, jsonRepPairs kvs = true → jsonMembers kvs = .ok ps →
      rest.head? = some '\x7d' →
      ((ps.map fun p => ',' :: p.toList).flatten ++ rest).length < fuel →
      jsonParseMembers fuel ((ps.map fun p => ',' :: p.toList).flatten ++ rest) =
        some (kvs, rest)) := by
  intro fuel
  induction fuel with
  | zero =>
    exact ⟨fun v s rest _ _ _ h => absurd h (by omega),
      fun vs ps rest _ _ _ h => absurd h (by omega),
      fun k v s rest _ _ _ h => absurd h (by omega),
      fun kvs ps rest _ _ _ h => absurd h (by omega)⟩
  | succ f ih =>
    obtain ⟨ihV, ihE, ihP, ihM⟩ := ih
    refine ⟨?_, ?_, ?_, ?_⟩
    -- value parser
    · intro v s rest hrep hs hb hlen
      cases v with
      | null =>
        have h1 : s = "null" := by simpa [jsonStringify] using hs.symm
        subst h1
        rfl
      | bool b =>
        cases b with
        | true =>
          have h1 : s = "true" := by simpa [jsonStringify] using hs.symm
          subst h1
          rfl
        | false =>
          have h1 : s = "false" := by simpa [jsonStringify] using hs.symm
          subst h1
          rfl
      | str t =>
        have h1 : s = jsonQuote t := by simpa [jsonStringify] using hs.symm
        subst h1
        rw [jsonQuote_toList]
        simp only [List.cons_append, List.append_assoc, List.singleton_append,
          List.nil_append]
        have step : ∀ X, jsonParseVal (f + 1) ('"' :: X) =
            (parseJsonString X).bind fun sr => some (.str sr.1, sr.2) := fun _ => rfl
        rw [step, parseJsonString_inv t rest]
        rfl
      | num m e =>
        have h1 : s = numToString m e := by simpa [jsonStringify] using hs.symm
        subst h1
        obtain ⟨c0, tl, hct, hc⟩ := numToString_head m e
        have hws : isJsonWs c0 = false := by
          rcases hc with rfl | hd
          · decide
          · exact digit_not_jsonws c0 hd
        have hn : c0 ≠ 'n' := by
          rcases hc with rfl | hd
          · decide
          · exact digit_ne_of_char _ _ hd (by decide)
        have ht' : c0 ≠ 't' := by
          rcases hc with rfl | hd
          · decide
          · exact digit_ne_of_char _ _ hd (by decide)
        have hf' : c0 ≠ 'f' := by
          rcases hc with rfl | hd
          · decide
          · exact digit_ne_of_char _ _ hd (by decide)
        have hq' : c0 ≠ '"' := by
          rcases hc with rfl | hd
          · decide
          · exact digit_ne_of_char _ _ hd (by decide)
        have hlb : c0 ≠ '[' := by
          rcases hc with rfl | hd
          · decide
          · exact digit_ne_of_char _ _ hd (by decide)
        have hob : c0 ≠ '\x7b' := by
          rcases hc with rfl | hd
          · decide
          · exact digit_ne_of_char _ _ hd (by decide)
        rw [hct]
        simp only [List.cons_append]
        rw [jsonParseVal_step_num f c0 (tl ++ rest) hws hn ht' hf' hq' hlb hob]
        rw [← List.cons_append, ← hct, parseJsonNumber_inv m e rest hb]
        rfl
      | arr xs =>
        have hxs : jsonRepList xs = true := by simpa [jsonRep] using hrep
        obtain ⟨ps, hps⟩ := jsonRepList_print xs hxs
        have h2 : jsonStringify (JSVal.arr xs) =
            .ok (some ("[" ++ String.intercalate "," ps ++ "]")) := by
          simp only [jsonStringify, hps]
          rfl
        rw [h2] at hs
        have h1 : s = "[" ++ String.intercalate "," ps ++ "]" := by simpa using hs.symm
        subst h1
        cases xs with
        | nil =>
          have hps0 : ps = [] := by
            rw [show jsonElems ([] : List JSVal) = .ok [] from rfl] at hps
            simpa using hps.symm
          subst hps0
          rfl
        | cons v1 vs' =>
          have hrepl : jsonRep v1 = true ∧ jsonRepList vs' = true := by
            simpa [jsonRepList, Bool.and_eq_true] using hxs
          obtain ⟨s1, hs1⟩ := jsonRep_print v1 hrepl.1
          obtain ⟨rs, hrs⟩ := jsonRepList_print vs' hrepl.2
          have h3 : jsonElems (v1 :: vs') = .ok (s1 :: rs) := by
            simp only [jsonElems, hs1, hrs]
            rfl
          rw [h3] at hps
          have hps' : ps = s1 :: rs := by simpa using hps.symm
          subst hps'
          have htxt : ("[" ++ String.intercalate "," (s1 :: rs) ++ "]").toList ++ rest =
              '[' :: (s1.toList ++
                ((rs.map fun q => ',' :: q.toList).flatten ++ ']' :: rest)) := by
            simp only [string_toList_append, intercalate_comma_toList,
              show ("[" : String).toList = ['['] from rfl,
              show ("]" : String).toList = [']'] from rfl,
              List.cons_append, List.nil_append, List.append_assoc,
              List.singleton_append]
          rw [htxt]
          rw [htxt] at hlen
          obtain ⟨c1, tl1, hct1, hws1, hne_rb, hne_cm, hne_cb⟩ :=
            jsonRep_print_head v1 s1 hrepl.1 hs1
          have stepA : ∀ X, jsonParseVal (f + 1) ('[' :: X) =
              (if (skipWs X).head? = some ']' then some (JSVal.arr [], (skipWs X).tail)
               else
                 (jsonParseVal f (skipWs X)).bind fun vr =>
                 (jsonParseElems f vr.2).bind fun vsr =>
                 if (skipWs vsr.2).head? = some ']' then
                   some (JSVal.arr (vr.1 :: vsr.1), (skipWs vsr.2).tail)
                 else none) := fun _ => rfl
          rw [stepA]
          have hsk1 : skipWs (s1.toList ++
              ((rs.map fun q => ',' :: q.toList).flatten ++ ']' :: rest)) =
              s1.toList ++ ((rs.map fun q => ',' :: q.toList).flatten ++ ']' :: rest) := by
            rw [hct1]
            simp only [List.cons_append]
            exact skipWs_cons_of c1 _ hws1
          have hhd1 : (s1.toList ++
              ((rs.map fun q => ',' :: q.toList).flatten ++ ']' :: rest)).head? =
              some c1 := by
            rw [hct1]
            simp
          rw [hsk1, if_neg (by rw [hhd1]; simp [hne_rb])]
          simp only [List.length_cons, List.length_append] at hlen
          have hpos1 : 1 ≤ s1.toList.length := by rw [hct1]; simp
          have hbel : ∀ c, ((rs.map fun q => ',' :: q.toList).flatten ++
              ']' :: rest).head? = some c →
              isDigitChar c = false ∧ c ≠ '.' ∧ c ≠ 'e' ∧ c ≠ 'E' :=
            elems_flatten_boundary rs ']' rest
              ⟨by decide, by decide, by decide, by decide⟩
          rw [ihV v1 s1 ((rs.map fun q => ',' :: q.toList).flatten ++ ']' :: rest)
            hrepl.1 hs1 hbel (by simp only [List.length_append, List.length_cons]; omega)]
          simp only [Option.some_bind]
          rw [ihE vs' rs (']' :: rest) hrepl.2 hrs rfl
            (by simp only [List.length_append, List.length_cons]; omega)]
          simp only [Option.some_bind]
          rw [skipWs_cons_of ']' rest (by decide),
            if_pos (show ((']' :: rest).head? = some ']') from rfl)]
          rfl
      | obj kvs =>
        have hkvs : jsonRepPairs kvs = true := by
          simp only [jsonRep, Bool.and_eq_true] at hrep
          exact hrep.2
        obtain ⟨ps, hps⟩ := jsonRepPairs_print kvs hkvs
        have h2 : jsonStringify (JSVal.obj kvs) =
            .ok (some ("\x7b" ++ String.intercalate "," ps ++ "\x7d")) := by
          simp only [jsonStringify, hps]
          rfl
        rw [h2] at hs
        have h1 : s = "\x7b" ++ String.intercalate "," ps ++ "\x7d" := by
          simpa using hs.symm
        subst h1
        cases kvs with
        | nil =>
          have hps0 : ps = [] := by
            rw [show jsonMembers ([] : List (String × JSVal)) = .ok [] from rfl] at hps
            simpa using hps.symm
          subst hps0
          rfl
        | cons kv1 kvs' =>
          obtain ⟨k, v1⟩ := kv1
          have hrepl : jsonRep v1 = true ∧ jsonRepPairs kvs' = true := by
            simpa [jsonRepPairs, Bool.and_eq_true] using hkvs
          obtain ⟨s1, hs1⟩ := jsonRep_print v1 hrepl.1
          obtain ⟨rs, hrs⟩ := jsonRepPairs_print kvs' hrepl.2
          have h3 : jsonMembers ((k, v1) :: kvs') = .ok ((jsonQuote k ++ ":" ++ s1) :: rs) := by
            simp only [jsonMembers, hs1, hrs]
            rfl
          rw [h3] at hps
          have hps' : ps = (jsonQuote k ++ ":" ++ s1) :: rs := by simpa using hps.symm
          subst hps'
          have hp1 : (jsonQuote k ++ ":" ++ s1).toList =
              (jsonQuote k).toList ++ ':' :: s1.toList := by
            simp only [string_toList_append, show (":" : String).toList = [':'] from rfl,
              List.append_assoc, List.singleton_append]
          have htxt : ("\x7b" ++ String.intercalate ","
                ((jsonQuote k ++ ":" ++ s1) :: rs) ++ "\x7d").toList ++ rest =
              '\x7b' :: ((jsonQuote k).toList ++ ':' :: (s1.toList ++
                ((rs.map fun q => ',' :: q.toList).flatten ++ '\x7d' :: rest))) := by
            simp only [string_toList_append, intercalate_comma_toList, hp1,
              show ("\x7b" : String).toList = ['\x7b'] from rfl,
              show ("\x7d" : String).toList = ['\x7d'] from rfl,
              List.cons_append, List.nil_append, List.append_assoc,
              List.singleton_append]
          rw [htxt]
          rw [htxt] at hlen
          have stepO : ∀ X, jsonParseVal (f + 1) ('\x7b' :: X) =
              (if (skipWs X).head? = some '\x7d' then some (JSVal.obj [], (skipWs X).tail)
               else
                 (jsonParsePair f (skipWs X)).bind fun pr =>
                 (jsonParseMembers f pr.2).bind fun psr =>
                 if (skipWs psr.2).head? = some '\x7d' then
                   some (JSVal.obj (pr.1 :: psr.1), (skipWs psr.2).tail)
                 else none) := fun _ => rfl
          rw [stepO]
          have hskp : skipWs ((jsonQuote k).toList ++ ':' :: (s1.toList ++
              ((rs.map fun q => ',' :: q.toList).flatten ++ '\x7d' :: rest))) =
              (jsonQuote k).toList ++ ':' :: (s1.toList ++
              ((rs.map fun q => ',' :: q.toList).flatten ++ '\x7d' :: rest)) := by
            rw [jsonQuote_toList]
            simp only [List.cons_append]
            exact skipWs_cons_of '"' _ (by decide)
          have hhdp : ((jsonQuote k).toList ++ ':' :: (s1.toList ++
              ((rs.map fun q => ',' :: q.toList).flatten ++ '\x7d' :: rest))).head? =
              some '"' := by
            rw [jsonQuote_toList]
            simp
          rw [hskp, if_neg (by rw [hhdp]; simp)]
          simp only [List.length_cons, List.length_append] at hlen
          have hor : ((rs.map fun q => ',' :: q.toList).flatten ++
              '\x7d' :: rest).head? = some ',' ∨
              ((rs.map fun q => ',' :: q.toList).flatten ++
              '\x7d' :: rest).head? = some '\x7d' := by
            cases rs with
            | nil => right; simp
            | cons a b => left; simp
          rw [ihP k v1 s1 ((rs.map fun q => ',' :: q.toList).flatten ++ '\x7d' :: rest)
            hrepl.1 hs1 hor
            (by simp only [List.length_append, List.length_cons]; omega)]
          simp only [Option.some_bind]
          rw [ihM kvs' rs ('\x7d' :: rest) hrepl.2 hrs rfl
            (by simp only [List.length_append, List.length_cons]; omega)]
          simp only [Option.some_bind]
          rw [skipWs_cons_of '\x7d' rest (by decide),
            if_pos (show (('\x7d' :: rest).head? = some '\x7d') from rfl)]
          rfl
      | undef => simp [jsonRep] at hrep
      | nan => simp [jsonRep] at hrep
      | bigint n => simp [jsonRep] at hrep
      | date y mo d hh mi ss ms => simp [jsonRep] at hrep
      | invalidDate => simp [jsonRep] at hrep
      | bytes bs => simp [jsonRep] at hrep
    -- element list parser
    · intro vs ps rest hrepl hel hhd hlen
      obtain ⟨a, r, rfl⟩ : ∃ a r, rest = a :: r := by
        cases rest with
        | nil => simp at hhd
        | cons a r => exact ⟨a, r, rfl⟩
      have ha : a = ']' := by simpa using hhd
      subst ha
      cases vs with
      | nil =>
        have hps0 : ps = [] := by
          rw [show jsonElems ([] : List JSVal) = .ok [] from rfl] at hel
          simpa using hel.symm
        subst hps0
        rfl
      | cons v1 vs' =>
        have hr : jsonRep v1 = true ∧ jsonRepList vs' = true := by
          simpa [jsonRepList, Bool.and_eq_true] using hrepl
        obtain ⟨s1, hs1⟩ := jsonRep_print v1 hr.1
        obtain ⟨rs, hrs⟩ := jsonRepList_print vs' hr.2
        have h3 : jsonElems (v1 :: vs') = .ok (s1 :: rs) := by
          simp only [jsonElems, hs1, hrs]
          rfl
        rw [h3] at hel
        have hps' : ps = s1 :: rs := by simpa using hel.symm
        subst hps'
        simp only [List.map_cons, List.flatten_cons, List.cons_append,
          List.append_assoc]
        have step : ∀ X, jsonParseElems (f + 1) (',' :: X) =
            (jsonParseVal f X).bind fun vr =>
            (jsonParseElems f vr.2).bind fun vsr =>
            some (vr.1 :: vsr.1, vsr.2) := fun _ => rfl
        rw [step]
        simp only [List.map_cons, List.flatten_cons, List.cons_append,
          List.append_assoc, List.length_cons, List.length_append] at hlen
        have hbel : ∀ c, ((rs.map fun q => ',' :: q.toList).flatten ++
            ']' :: r).head? = some c →
            isDigitChar c = false ∧ c ≠ '.' ∧ c ≠ 'e' ∧ c ≠ 'E' :=
          elems_flatten_boundary rs ']' r ⟨by decide, by decide, by decide, by decide⟩
        obtain ⟨c1, tl1, hct1, hws1, hne_rb, hne_cm, hne_cb⟩ :=
          jsonRep_print_head v1 s1 hr.1 hs1
        have hpos1 : 1 ≤ s1.toList.length := by rw [hct1]; simp
        rw [ihV v1 s1 ((rs.map fun q => ',' :: q.toList).flatten ++ ']' :: r)
          hr.1 hs1 hbel (by simp only [List.length_append, List.length_cons]; omega)]
        simp only [Option.some_bind]
        rw [ihE vs' rs (']' :: r) hr.2 hrs rfl
          (by simp only [List.length_append, List.length_cons]; omega)]
        simp only [Option.some_bind]
    -- pair parser
    · intro k v s rest hrep hs hor hlen
      rw [jsonQuote_toList]
      simp only [List.cons_append, List.append_assoc, List.singleton_append,
        List.nil_append]
      have step : ∀ X, jsonParsePair (f + 1) ('"' :: X) =
          (parseJsonString X).bind fun kr =>
            if (skipWs kr.2).head? = some ':' then
              (jsonParseVal f (skipWs kr.2).tail).bind fun vr =>
              some ((kr.1, vr.1), vr.2)
            else none := fun _ => rfl
      rw [step, parseJsonString_inv k (':' :: (s.toList ++ rest))]
      simp only [Option.some_bind]
      rw [skipWs_cons_of ':' (s.toList ++ rest) (by decide),
        if_pos (show ((':' :: (s.toList ++ rest)).head? = some ':') from rfl)]
      simp only [List.tail_cons]
      have hbnd : ∀ c, rest.head? = some c →
          isDigitChar c = false ∧ c ≠ '.' ∧ c ≠ 'e' ∧ c ≠ 'E' := by
        rcases hor with h | h
        · exact boundary_of_head rest ',' h ⟨by decide, by decide, by decide, by decide⟩
        · exact boundary_of_head rest '\x7d' h
            ⟨by decide, by decide, by decide, by decide⟩
      rw [jsonQuote_toList] at hlen
      simp only [List.length_cons, List.length_append] at hlen
      rw [ihV v s rest hrep hs hbnd (by simp only [List.length_append]; omega)]
      rfl
    -- member list parser
    · intro kvs ps rest hrepl hel hhd hlen
      obtain ⟨a, r, rfl⟩ : ∃ a r, rest = a :: r := by
        cases rest with
        | nil => simp at hhd
        | cons a r => exact ⟨a, r, rfl⟩
      have ha : a = '\x7d' := by simpa using hhd
      subst ha
      cases kvs with
      | nil =>
        have hps0 : ps = [] := by
          rw [show jsonMembers ([] : List (String × JSVal)) = .ok [] from rfl] at hel
          simpa using hel.symm
        subst hps0
        rfl
      | cons kv1 kvs' =>
        obtain ⟨k, v1⟩ := kv1
        have hr : jsonRep v1 = true ∧ jsonRepPairs kvs' = true := by
          simpa [jsonRepPairs, Bool.and_eq_true] using hrepl
        obtain ⟨s1, hs1⟩ := jsonRep_print v1 hr.1
        obtain ⟨rs, hrs⟩ := jsonRepPairs_print kvs' hr.2
        have h3 : jsonMembers ((k, v1) :: kvs') =
            .ok ((jsonQuote k ++ ":" ++ s1) :: rs) := by
          simp only [jsonMembers, hs1, hrs]
          rfl
        rw [h3] at hel
        have hps' : ps = (jsonQuote k ++ ":" ++ s1) :: rs := by simpa using hel.symm
        subst hps'
        have hp1 : (jsonQuote k ++ ":" ++ s1).toList =
            (jsonQuote k).toList ++ ':' :: s1.toList := by
          simp only [string_toList_append, show (":" : String).toList = [':'] from rfl,
            List.append_assoc, List.singleton_append]
        simp only [List.map_cons, List.flatten_cons, hp1, List.cons_append,
          List.append_assoc]
        have step : ∀ X, jsonParseMembers (f + 1) (',' :: X) =
            (jsonParsePair f X).bind fun pr =>
            (jsonParseMembers f pr.2).bind fun psr =>
            some (pr.1 :: psr.1, psr.2) := fun _ => rfl
        rw [step]
        simp only [List.map_cons, List.flatten_cons, hp1, List.cons_append,
          List.append_assoc, List.length_cons, List.length_append] at hlen
        have hor : ((rs.map fun q => ',' :: q.toList).flatten ++
            '\x7d' :: r).head? = some ',' ∨
            ((rs.map fun q => ',' :: q.toList).flatten ++
            '\x7d' :: r).head? = some '\x7d' := by
          cases rs with
          | nil => right; simp
          | cons x y => left; simp
        rw [ihP k v1 s1 ((rs.map fun q => ',' :: q.toList).flatten ++ '\x7d' :: r)
          hr.1 hs1 hor (by simp only [List.length_append, List.length_cons]; omega)]
        simp only [Option.some_bind]
        rw [ihM kvs' rs ('\x7d' :: r) hr.2 hrs rfl
          (by simp only [List.length_append, List.length_cons]; omega)]
        simp only [Option.some_bind]

/-- JSON.parse inverts JSON.stringify on represented values. -/
theorem jsonParse_print (v : JSVal) (s : String) (h : jsonRep v = true)
    (hs : jsonStringify v = .ok (some s)) : jsonParse s = .ok v := by
  have hinv := (jsonParse_inv_all (s.toList.length + 1)).1 v s [] h hs
    (by intro c hc; cases hc) (by simp)
  rw [List.append_nil] at hinv
  unfold jsonParse
  dsimp only
  rw [hinv]
  rfl

/-- C1 counterexample: the round trip fails for arrays and for binary buffers.
An array serializes to brace-delimited text but its inferred type is the
scalar type of its first element, so the text re-enters the numeric parser
and yields NaN; a buffer serializes to JSON object text but its inferred type
is bytea, so deserialization hex-decodes the text and stops at the first
non-hex pair, yielding an empty buffer. -/
theorem claim_C1_counterexample :
    roundTrip (.arr [.num 1 0, .num 2 0, .num 3 0]) = some (.ok .nan) ∧
    roundTrip (.bytes [222, 173]) = some (.ok (.bytes [])) ∧
    JSVal.nan ≠ JSVal.arr [.num 1 0, .num 2 0, .num 3 0] ∧
    JSVal.bytes [] ≠ JSVal.bytes [222, 173] := by
  refine ⟨rfl, rfl, by simp, by simp⟩

/-- C1 (amended): the serialize/deserialize round trip under the inferred
type holds for the scalar kinds - every string, every number in the decimal
mantissa/scale model, every boolean, every bigint, every Date within the
printable calendar ranges - and for every plain object whose contents are
JSON-representable (null, booleans, strings, numbers, nested arrays and
objects of such with distinct keys); it does not extend to top-level arrays
or binary buffers. -/
theorem claim_C1_amended :
    (∀ s, roundTrip (.str s) = some (.ok (.str s))) ∧
    (∀ m e, roundTrip (.num m e) = some (.ok (.num m e))) ∧
    (∀ b, roundTrip (.bool b) = some (.ok (.bool b))) ∧
    (∀ n, roundTrip (.bigint n) = some (.ok (.bigint n))) ∧
    (∀ y mo d h mi s ms, y ≤ 9999 → 1 ≤ mo → mo ≤ 12 → 1 ≤ d → d ≤ 31 →
      h ≤ 23 → mi ≤ 59 → s ≤ 59 → ms ≤ 999 →
      roundTrip (.date y mo d h mi s ms) = some (.ok (.date y mo d h mi s ms))) ∧
    (∀ kvs, jsonRep (.obj kvs) = true →
      roundTrip (.obj kvs) = some (.ok (.obj kvs))) := by
  refine ⟨fun s => rfl, ?_, fun b => by cases b <;> rfl, ?_, ?_, ?_⟩
  · intro m e
    have hd0 : deserialize0 (numToString m e) = .num m e := by
      unfold deserialize0
      rw [jsToNumber_numToString]
    by_cases hdvd : (10 : Int) ^ e ∣ m
    · show some (deserialize (numToString m e) (inferType (JSVal.num m e))) =
        some (.ok (JSVal.num m e))
      rw [show inferType (JSVal.num m e) =
        (if (10 : Int) ^ e ∣ m then 23 else 700) from rfl, if_pos hdvd,
        show deserialize (numToString m e) 23 =
          .ok (deserialize0 (numToString m e)) from rfl, hd0]
    · show some (deserialize (numToString m e) (inferType (JSVal.num m e))) =
        some (.ok (JSVal.num m e))
      rw [show inferType (JSVal.num m e) =
        (if (10 : Int) ^ e ∣ m then 23 else 700) from rfl, if_neg hdvd,
        show deserialize (numToString m e) 700 =
          .ok (deserialize0 (numToString m e)) from rfl, hd0]
  · intro n
    show some (deserialize (intToDecString n) 20) = some (.ok (JSVal.bigint n))
    rw [show deserialize (intToDecString n) 20 =
      (parseBigInt (intToDecString n)).map JSVal.bigint from rfl,
      parseBigInt_intToDecString n]
    rfl
  · intro y mo d h mi s ms hy hmo1 hmo hd1 hd hh hmi hs hms
    show some (deserialize (dateToISO y mo d h mi s ms) 1184) =
      some (Except.ok (JSVal.date y mo d h mi s ms))
    rw [show deserialize (dateToISO y mo d h mi s ms) 1184 =
      .ok (jsDateParse (dateToISO y mo d h mi s ms)) from rfl,
      jsDateParse_dateToISO y mo d h mi s ms hy hmo1 hmo hd1 hd hh hmi hs hms]
  · intro kvs h
    obtain ⟨s, hs⟩ := jsonRep_print (.obj kvs) h
    have hser : serialize (JSVal.obj kvs) = .ok (some s) := hs
    unfold roundTrip
    rw [hser]
    show some (deserialize s (inferType (JSVal.obj kvs))) =
      some (.ok (JSVal.obj kvs))
    rw [show deserialize s (inferType (JSVal.obj kvs)) = jsonParse s from rfl,
      jsonParse_print (JSVal.obj kvs) s h hs]

theorem claim_C1_amended_witness :
    roundTrip (.date 2024 5 17 12 30 45 123) =
      some (.ok (.date 2024 5 17 12 30 45 123)) ∧
    jsonRep (.obj [("a", .num 15 1), ("b", .arr [.str "x", .null])]) = true ∧
    roundTrip (.obj [("a", .num 15 1), ("b", .arr [.str "x", .null])]) =
      some (.ok (.obj [("a", .num 15 1), ("b", .arr [.str "x", .null])])) :=
  ⟨claim_C1_amended.2.2.2.2.1 2024 5 17 12 30 45 123 (by omega) (by omega)
      (by omega) (by omega) (by omega) (by omega) (by omega) (by omega) (by omega),
    rfl,
    claim_C1_amended.2.2.2.2.2 [("a", .num 15 1), ("b", .arr [.str "x", .null])] rfl⟩

end NeonSql
